import Mathlib

/-!
Verification of the auto-survey reference-integrity pipeline.

Python strings are modelled as lists of characters (`Str`).  Each definition
below is a shallow embedding of the corresponding function in the repository
(`data_models.py`, `writing.py`, `search.py`, `summarisation.py`); external
collaborators (the LLM completion service, the paper index HTTP API, the
document fetcher) are modelled as oracle functions passed in explicitly.
-/

/-- Python strings are modelled as lists of characters. -/
abbrev Str := List Char

/-- Turn a Lean string literal into the `Str` model. -/
def chars (s : String) : Str := s.data

/-- Whitespace test matching Python `str.strip` / `str.isspace` on the ASCII
whitespace characters that occur in this code base. -/
def pyIsSpace (c : Char) : Bool :=
  c = ' ' || c = '\t' || c = '\n' || c = '\r' || c = '\x0b' || c = '\x0c'

/-- Python `str.strip()`: drop whitespace from both ends. -/
def pyStrip (s : Str) : Str :=
  ((s.dropWhile pyIsSpace).reverse.dropWhile pyIsSpace).reverse

/-- Python `str.lower()` (ASCII model). -/
def pyLower (s : Str) : Str := s.map Char.toLower

/-- Character-by-character worker for `pySplitlines`. `cur` is the current
line accumulated in reverse order. -/
def splitlinesGo (cur : Str) : Str → List Str
  | [] => [cur.reverse]
  | c :: rest =>
    if c = '\n' then
      cur.reverse :: (if rest.isEmpty then [] else splitlinesGo [] rest)
    else
      splitlinesGo (c :: cur) rest

/-- Python `str.splitlines()` restricted to `\n` line endings (the only line
ending produced by the code under verification).  Note `"".splitlines() = []`
and a trailing newline does not produce a trailing empty line. -/
def pySplitlines (s : Str) : List Str :=
  if s.isEmpty then [] else splitlinesGo [] s

/-- Join a list of lines with single `\n` characters (`"\n".join(...)`). -/
def joinNL : List Str → Str
  | [] => []
  | [l] => l
  | l :: l' :: ls => l ++ '\n' :: joinNL (l' :: ls)

/-- Python `sep.join(parts)` for a general separator. -/
def joinSep (sep : Str) : List Str → Str
  | [] => []
  | [l] => l
  | l :: l' :: ls => l ++ sep ++ joinSep sep (l' :: ls)

/-- Does `needle` occur in `text` starting at index `i`? -/
def matchAt (needle text : Str) (i : Nat) : Bool :=
  decide ((text.drop i).take needle.length = needle)

/-- Python `needle in text`: substring containment. -/
def pyIn (needle text : Str) : Bool :=
  (List.range (text.length + 1)).any (fun i => matchAt needle text i)

/-- All indices at which `needle` occurs in `text`, in increasing order. -/
def occIdxs (needle text : Str) : List Nat :=
  (List.range (text.length + 1)).filter (fun i => matchAt needle text i)

/-- Python `text.split(needle, 1)` when the separator occurs (first
occurrence); `none` models the case where the separator is absent and the
caller unpacks two parts (a `ValueError`). -/
def split1 (needle text : Str) : Option (Str × Str) :=
  match (occIdxs needle text).head? with
  | none => none
  | some i => some (text.take i, text.drop (i + needle.length))

/-- Python `text.rsplit(needle, 1)` when the separator occurs (last
occurrence); `none` models the separator being absent. -/
def rsplit1 (needle text : Str) : Option (Str × Str) :=
  match (occIdxs needle text).getLast? with
  | none => none
  | some i => some (text.take i, text.drop (i + needle.length))

/-- Worker for `collapseNL`: `run` counts how many consecutive `\n`
characters have just been read; a `\n` is kept only while fewer than two
have been kept in the current run. -/
def capNLAux (run : Nat) : Str → Str
  | [] => []
  | c :: rest =>
    if c = '\n' then
      if run < 2 then c :: capNLAux (run + 1) rest else capNLAux (run + 1) rest
    else
      c :: capNLAux 0 rest

/-- Model of `re.sub(r"\n{2,}", "\n\n", s)`: every maximal run of two or
more newlines is replaced by exactly two newlines (equivalently, newline
runs are capped at length two). -/
def collapseNL (s : Str) : Str := capNLAux 0 s

/-- Python regex word character (`\w`, ASCII model): letters, digits, `_`. -/
def isWordChar (c : Char) : Bool := c.isAlphanum || c = '_'

/-- Is the character at index `i` of `line` a word character (`false` past
either end of the string)? -/
def wordAt (line : Str) (i : Nat) : Bool :=
  match line.get? i with
  | some c => isWordChar c
  | none => false

/-- Does the regex assertion `\b` hold at position `i` of `line`? -/
def wordBoundary (line : Str) (i : Nat) : Bool :=
  (if i = 0 then false else wordAt line (i - 1)) != wordAt line i

/-- Model of `re.search(rf"\b{re.escape(title)}\b", line) is not None`:
`title` occurs literally at some position with word boundaries on both
sides. -/
def reSearchWord (title line : Str) : Bool :=
  (List.range (line.length + 1)).any
    (fun i => matchAt title line i && wordBoundary line i
      && wordBoundary line (i + title.length))

/-- Python `str(n)` for integers (decimal, with a leading minus sign for
negative numbers). -/
def pyIntStr (n : Int) : Str :=
  if n < 0 then '-' :: Nat.toDigits 10 n.natAbs else Nat.toDigits 10 n.toNat

/-- Worker for `pyTitle`; `prevAlpha` records whether the previous character
was a letter. -/
def pyTitleGo (prevAlpha : Bool) : Str → Str
  | [] => []
  | c :: rest =>
    (if c.isAlpha then (if prevAlpha then c.toLower else c.toUpper) else c)
      :: pyTitleGo c.isAlpha rest

/-- Python `str.title()` (ASCII model): the first letter of every maximal
letter run is uppercased, the rest lowercased. -/
def pyTitle (s : Str) : Str := pyTitleGo false s

/-- A match of `needle` at index `i` fits inside `text` past index `i`. -/
theorem matchAt_length_le {needle text : Str} {i : Nat}
    (h : matchAt needle text i = true) : needle.length ≤ text.length - i := by
  have heq : (text.drop i).take needle.length = needle := of_decide_eq_true h
  have := congrArg List.length heq
  simp [List.length_take, List.length_drop] at this
  omega

/-- Fuelled worker for `pyReplace`; the fuel (at least `s.length`) only
serves structural termination, every replacement step consumes at least one
character. -/
def pyReplaceGo (old new : Str) : Nat → Str → Str
  | 0, s => s
  | fuel + 1, s =>
    if old ≠ [] ∧ matchAt old s 0 = true then
      new ++ pyReplaceGo old new fuel (s.drop old.length)
    else
      match s with
      | [] => []
      | c :: rest => c :: pyReplaceGo old new fuel rest

/-- Python `s.replace(old, new)` (all occurrences, left to right). -/
def pyReplace (old new : Str) (s : Str) : Str :=
  pyReplaceGo old new s.length s

/-- Fuelled worker for `pySplitOn`: `cur` is the current field in reverse
order; the fuel (at least `s.length`) only serves structural termination. -/
def pySplitOnGo (sep : Str) : Nat → Str → Str → List Str
  | 0, cur, _ => [cur.reverse]
  | fuel + 1, cur, s =>
    if sep ≠ [] ∧ matchAt sep s 0 = true then
      cur.reverse :: pySplitOnGo sep fuel [] (s.drop sep.length)
    else
      match s with
      | [] => [cur.reverse]
      | c :: rest => pySplitOnGo sep fuel (c :: cur) rest

/-- Python `s.split(sep)` for a non-empty separator: split on every
occurrence, scanning left to right. -/
def pySplitOn (sep s : Str) : List Str := pySplitOnGo sep (s.length + 1) [] s

/-!
Data model (`data_models.py`).
-/

/-- An author of a research paper (`data_models.Author`). -/
structure Author where
  first_name : Str
  last_name : Str
deriving DecidableEq

/-- Model of `Author.__str__`: `"last, first"`, each component omitted when
empty, `"Unknown Author"` when both are empty. -/
def Author.str (a : Author) : Str :=
  let string : Str := []
  let string := if a.last_name ≠ [] then string ++ a.last_name else string
  let string :=
    if a.first_name ≠ [] then
      (if string ≠ [] then string ++ chars (", ") else string) ++ a.first_name
    else string
  if string ≠ [] then string else chars ("Unknown Author")

/-- A research paper (`data_models.Paper`).  Equality in the Python class is
structural over all six fields, which `DecidableEq` mirrors. -/
structure Paper where
  title : Str
  authors : List Author
  year : Int
  venue : Str
  url : Str
  summary : Str
deriving DecidableEq

/-- Model of `Paper.get_citation(in_parens)`: APA-style citation, either
parenthetical `"(X, Year)"` or narrative `"X (Year)"`. -/
def Paper.get_citation (p : Paper) (in_parens : Bool) : Str :=
  let author_str : Str :=
    match p.authors with
    | [] => chars ("Unknown Author")
    | [author] => author.last_name
    | [author1, author2] => author1.last_name ++ chars (" and ") ++ author2.last_name
    | author1 :: _ :: _ :: _ => author1.last_name ++ chars (" et al.")
  let year_str : Str := if p.year ≠ -1 then pyIntStr p.year else chars ("n.d.")
  if in_parens then
    chars ("(") ++ author_str ++ chars (", ") ++ year_str ++ chars (")")
  else
    author_str ++ chars (" (") ++ year_str ++ chars (")")

/-- Model of `Paper.references_entry`: APA-style reference entry. -/
def Paper.references_entry (p : Paper) : Str :=
  let entry : Str := []
  let authors_str := joinSep (chars (" and ")) (p.authors.map Author.str)
  let entry := entry ++ (if authors_str ≠ [] then authors_str else chars ("Unknown Author"))
  let year_str : Str := if p.year ≠ -1 then pyIntStr p.year else chars ("n.d.")
  let entry := entry ++ chars (" (") ++ year_str ++ chars (").")
  let entry := if p.title ≠ [] then entry ++ chars (" ") ++ pyTitle p.title ++ chars (".") else entry
  let entry := if p.venue ≠ [] then entry ++ chars (" _") ++ pyTitle p.venue ++ chars ("_.") else entry
  pyStrip entry

/-- The citation-presence scan used throughout `writing.py`: a paper is
cited in a text when either citation surface form occurs as a substring. -/
def citedInText (p : Paper) (text : Str) : Bool :=
  pyIn (p.get_citation true) text || pyIn (p.get_citation false) text

/-!
Query post-processing (`data_models.Queries.__post_init__`).
-/

/-- One step of the OR-splitting loop: `queries.pop(i)` followed by
`queries.extend(...)`.  A `pop` with an out-of-range index raises
`IndexError`, modelled by `none`. -/
def orSplitStep (qs : List Str) (i : Nat) : Option (List Str) :=
  if i < qs.length then
    let or_query := qs.get! i
    some (qs.eraseIdx i ++ (pySplitOn (chars (" OR ")) or_query).map pyStrip)
  else none

/-- The `for i in indices_with_or_statement` loop. -/
def orSplitLoop (qs : List Str) : List Nat → Option (List Str)
  | [] => some qs
  | i :: rest =>
    match orSplitStep qs i with
    | none => none
    | some qs' => orSplitLoop qs' rest

/-- Model of `Queries.__post_init__` acting on the `queries` list: trim and
drop blanks, split queries whose lowercased text contains `" OR "` (note the
uppercase `OR` is tested against the lowercased query, exactly as in the
source), remove `" AND "`, and deduplicate via `list(set(...))`.  Python set
iteration order is unspecified; deduplication is modelled as keeping the
first occurrence of each query. -/
def queriesPostInit (queries : List Str) : Option (List Str) := do
  let queries := (queries.map pyStrip).filter (fun q => q ≠ [])
  let indices_with_or_statement :=
    (List.range queries.length).filter
      (fun i => pyIn (chars (" OR ")) (pyLower (queries.get! i)))
  let queries ← orSplitLoop queries indices_with_or_statement
  let queries := queries.map (pyReplace (chars (" AND ")) (chars (" ")))
  pure queries.dedup

/-!
Survey writing (`writing.py`).
-/

/-- The References heading marker used by `write_literature_survey`. -/
def refsMarker : Str := chars ("## References")

/-- Model of the pruning step of `write_literature_survey`
(`writing.py` lines 144-165): split the survey at the last occurrence of
`"## References"` (`rsplit(..., 1)`), drop every reference line matched by
`re.search(rf"\b{re.escape(paper.title)}\b", line)` for some still-uncited
paper (the index-set construction in the source removes exactly the lines
satisfying that per-line predicate), collapse blank-line runs, and reattach.
`none` models the `ValueError` raised when the marker is absent. -/
def prune_uncited (literature_survey : Str)
    (papers_still_missing_citations : List Paper) : Option Str :=
  match rsplit1 refsMarker literature_survey with
  | none => none
  | some (content_part, references_part) =>
    let references_lines := pySplitlines (pyStrip references_part)
    let references_lines := references_lines.filter
      (fun line => ! papers_still_missing_citations.any
        (fun paper => reSearchWord paper.title line))
    let corrected_references_part := pyStrip (collapseNL (joinNL references_lines))
    some (pyStrip content_part ++ chars ("\n\n## References\n\n")
      ++ corrected_references_part)

/-- Model of `write_literature_survey` after the first completion call.
`first_draft` is the survey returned by the first LLM call and `revise` is
the LLM revision oracle (second completion call); both are outputs of the
external completion service.  The returned Boolean records whether the
repair completion call was made; `none` models the `ValueError` from the
pruning step when the draft lacks a `"## References"` marker. -/
def write_literature_survey (relevant_papers : List Paper)
    (first_draft : Str) (revise : Str → Str) : Option (Str × Bool) :=
  let literature_survey := first_draft
  let papers_missing_citations :=
    relevant_papers.filter (fun p => ! citedInText p literature_survey)
  let st :=
    if papers_missing_citations ≠ [] then (revise literature_survey, true)
    else (literature_survey, false)
  let literature_survey := st.1
  let papers_still_missing_citations :=
    relevant_papers.filter (fun p => ! citedInText p literature_survey)
  if papers_still_missing_citations ≠ [] then
    (prune_uncited literature_survey papers_still_missing_citations).map
      (fun t => (t, st.2))
  else
    some (literature_survey, st.2)

/-- Stable insertion of a paper into a list sorted by first author's
surname (empty-string key for a paper with no authors). -/
def sortKey (p : Paper) : Str :=
  match p.authors with
  | [] => []
  | a :: _ => a.last_name

/-- Lexicographic comparison of `Str` by character code (case-sensitive
exact string compare). -/
def strLe : Str → Str → Bool
  | [], _ => true
  | _ :: _, [] => false
  | a :: as, b :: bs => if a = b then strLe as bs else decide (a < b)

/-- Stable insertion sort step for `sortPapers`. -/
def insertPaper (p : Paper) : List Paper → List Paper
  | [] => [p]
  | q :: qs => if strLe (sortKey p) (sortKey q) then p :: q :: qs
               else q :: insertPaper p qs

/-- Stable insertion sort of papers by first author's surname, ascending. -/
def sortPapers : List Paper → List Paper
  | [] => []
  | p :: ps => insertPaper p (sortPapers ps)

/-- The body of a drafted survey: everything before the first occurrence
of the `"## References"` marker (the whole text when the marker is
absent). -/
def surveyBody (literature_survey : Str) : Str :=
  match split1 refsMarker literature_survey with
  | none => literature_survey
  | some (content_part, _) => content_part

/-- The regenerated References section for a given body: the canonical
reference entries of exactly the cited papers, sorted by first author's
surname, separated by blank lines, under the heading. -/
def refsSection (papers : List Paper) (body : Str) : Str :=
  refsMarker ++ (chars ("\n\n")
    ++ joinSep (chars ("\n\n"))
      ((sortPapers (papers.filter (fun p => citedInText p body))).map
        Paper.references_entry))

/-- Modelled from the spec: the repository's tests import a function
`correct_references` from `auto_survey.writing` that is absent from the
source tree; only the spec's description of `rebuild_references`
(§4.6) and the expected test output describe it.  It discards the draft's
References section entirely, keeping the body before the first occurrence
of `"## References"` (the part before the marker when the marker is
absent), and regenerates the section from `Paper.references_entry` for
exactly the papers whose citation surface form occurs in the body text
above the heading (§8, bijection property), sorted by first author's
surname ascending with a stable sort, entries separated by one blank
line. -/
def correct_references (literature_survey : Str) (papers : List Paper) : Str :=
  surveyBody literature_survey
    ++ refsSection papers (surveyBody literature_survey)

/-!
Paper search (`search.py`).
-/

/-- An HTTP response from the paper index, as far as `find_papers` inspects
it: a status code, the response text (used only for the 400 check), and the
list of `Paper` records parsed from a successful payload (the null-tolerant
field extraction is abstracted into this field). -/
structure IndexResponse where
  status : Nat
  text : Str
  payload : List Paper

/-- Result of a `find_papers` call. -/
inductive FindResult where
  | exhausted
  | found (papers : List Paper)
  | fatal (status : Nat)
  | noResponse
deriving DecidableEq

/-- The magic substring tested on a 400 response. -/
def exhaustedMsg : Str := chars ("this limit and/or offset is not available")

/-- Model of `find_papers`' response-handling loop (`search.py` lines
205-239).  `responses` is the stream of successive HTTP responses for the
retry loop: status 429 sleeps and retries; status 400 returns `exhausted`
(Python `None`) when the response text contains the exhausted-offset
message, otherwise logs and returns an empty result list; any other status
goes through `raise_for_status`, which raises (`fatal`) for 4xx/5xx and
otherwise yields the parsed papers.  `noResponse` models running out of the
finite modelled response stream while rate-limited. -/
def find_papers : List IndexResponse → FindResult
  | [] => .noResponse
  | r :: rest =>
    if r.status = 429 then find_papers rest
    else if r.status = 400 then
      if pyIn exhaustedMsg (pyLower r.text) then .exhausted else .found []
    else if 400 ≤ r.status ∧ r.status ≤ 599 then .fatal r.status
    else .found r.payload

/-!
Paper collection (`search.py`, `get_all_papers`).
-/

/-- One sweep of the `for query in queries` loop.  Python iterates by
index; `queries.remove(query)` removes the first occurrence of the current
query and shifts the remainder left, so the iteration continues at the next
index of the mutated list.  `find` is the paper-index oracle (query and
offset to an optional page; `none` is the exhausted signal) and `rel` the
relevance-judge oracle.  `fuel` bounds the iteration count (the loop runs
at most `queries.length` iterations since the list never grows). -/
def sweepQueries (find : Str → Nat → Option (List Paper)) (rel : Paper → Bool)
    (min_num_relevant_papers offset : Nat) :
    Nat → Nat → List Str → List Paper → List Str × List Paper
  | 0, _, queries, relevant_papers => (queries, relevant_papers)
  | fuel + 1, i, queries, relevant_papers =>
    if h : i < queries.length then
      let query := queries.get ⟨i, h⟩
      match find query offset with
      | none =>
        sweepQueries find rel min_num_relevant_papers offset
          fuel (i + 1) (queries.erase query) relevant_papers
      | some papers =>
        let papers := papers.filter (fun paper => ¬ paper ∈ relevant_papers)
        let new_relevant_papers := papers.filter rel
        let relevant_papers := relevant_papers ++ new_relevant_papers
        if relevant_papers.length ≥ min_num_relevant_papers then
          (queries, relevant_papers)
        else
          sweepQueries find rel min_num_relevant_papers offset
            fuel (i + 1) queries relevant_papers
    else (queries, relevant_papers)

/-- The outer `while` loop of `get_all_papers`, with explicit fuel for the
unbounded search. -/
def collectLoop (find : Str → Nat → Option (List Paper)) (rel : Paper → Bool)
    (min_num_relevant_papers batch_size : Nat) :
    Nat → Nat → List Str → List Paper → List Paper
  | 0, _, _, relevant_papers => relevant_papers
  | fuel + 1, offset, queries, relevant_papers =>
    if relevant_papers.length < min_num_relevant_papers ∧ queries ≠ [] then
      let st := sweepQueries find rel min_num_relevant_papers offset
        (queries.length + 1) 0 queries relevant_papers
      collectLoop find rel min_num_relevant_papers batch_size
        fuel (offset + batch_size) st.1 st.2
    else relevant_papers

/-- Model of `get_all_papers` (`search.py` lines 47-83) after the query
list has been produced by the Query Planner: collect relevant, deduplicated
papers by sweeping all queries at a shared offset that grows by
`batch_size` after each sweep. -/
def get_all_papers (find : Str → Nat → Option (List Paper)) (rel : Paper → Bool)
    (min_num_relevant_papers batch_size fuel : Nat)
    (queries : List Str) : List Paper :=
  collectLoop find rel min_num_relevant_papers batch_size fuel 0 queries []

/-!
Paper summarisation (`summarisation.py`).
-/

/-- Outcome of one `parse_pdf` attempt.  The first four constructors are
the exception classes `summarise_paper` catches: success, an
`httpx.HTTPStatusError` with a status code, a connection-level error
(`ConnectError`/`ConnectTimeout`), and a docling `ConversionError`.
`uncaughtError` is any other fetch failure — e.g. `httpx.ReadTimeout`,
`httpx.ReadError`, `httpx.TooManyRedirects`, `httpx.UnsupportedProtocol` —
which no `except` clause of the retry loop matches, so the exception
escapes the loop and `summarise_paper` itself. -/
inductive FetchOutcome where
  | ok (content : Str)
  | httpError (status : Nat)
  | connectError
  | conversionError
  | uncaughtError
deriving DecidableEq

/-- How `summarise_paper` can fail: an uncaught exception escaping the
fetch phase, or a failure of the completion-service call. -/
inductive SummariseError where
  | fetchRaised
  | llmFailed
deriving DecidableEq

/-- The `for _ in range(3)` fetch-retry loop of `summarise_paper`:
`attempt` indexes the next fetch, `remaining` counts loop iterations left.
On normal termination returns the fetched content (empty when no attempt
succeeded), the number of fetch attempts actually made, and the number of
one-second sleeps; an uncaught fetch exception propagates as `error`. -/
def fetchLoop (fetch : Nat → FetchOutcome) :
    Nat → Nat → Except Unit (Str × Nat × Nat)
  | _, 0 => .ok ([], 0, 0)
  | attempt, remaining + 1 =>
    match fetch attempt with
    | .ok content => .ok (content, 1, 0)
    | .httpError status =>
      if status = 403 then .ok ([], 1, 0)
      else
        match fetchLoop fetch (attempt + 1) remaining with
        | .ok r => .ok (r.1, r.2.1 + 1, r.2.2 + 1)
        | .error e => .error e
    | .connectError =>
      match fetchLoop fetch (attempt + 1) remaining with
      | .ok r => .ok (r.1, r.2.1 + 1, r.2.2 + 1)
      | .error e => .error e
    | .conversionError => .ok ([], 1, 0)
    | .uncaughtError => .error ()

/-- The fallback document built from the paper's title and stored summary
when no content could be fetched. -/
def fallbackDoc (paper : Paper) : Str :=
  chars ("# ") ++ paper.title
    ++ (if paper.summary ≠ [] then chars ("\n\n## Summary\n\n") ++ paper.summary else [])

/-- The fetch phase of `summarise_paper`: the retry loop runs only when
`paper.url` is non-empty. -/
def fetchPhase (paper : Paper) (fetch : Nat → FetchOutcome) :
    Except Unit (Str × Nat × Nat) :=
  if paper.url ≠ [] then fetchLoop fetch 0 3 else .ok ([], 0, 0)

/-- The middle-truncation step of `summarise_paper`: content longer than
150000 characters keeps its head and tail halves around an explicit
truncation marker (`content[:75000] + marker + content[-75000:]`). -/
def truncateContent (content : Str) : Str :=
  let max_content_length := 150000
  if content.length > max_content_length then
    content.take (max_content_length / 2)
      ++ chars ("\n\n(...content truncated...)\n\n")
      ++ content.drop (content.length - max_content_length / 2)
  else content

/-- The document finally sent to the completion service by
`summarise_paper`, given a normally-terminated fetch phase: the (possibly
truncated) fetched content, or the fallback document when no content was
obtained. -/
def summariseDoc (paper : Paper) (st : Str × Nat × Nat) : Str :=
  let content := truncateContent st.1
  if content = [] then fallbackDoc paper else content

/-- Model of `summarise_paper` (`summarisation.py` lines 36-90).  `fetch`
is the document-fetch oracle giving the outcome of each `parse_pdf`
attempt, and `llm` the completion-service oracle; the system and user
prompts are fixed text around the document content, so the oracle is a
function of the content.  The result carries the summary together with the
content sent to the LLM, the fetch attempts made and the sleeps performed.
Two errors propagate: an uncaught exception in the fetch phase
(`fetchRaised`) and a failure of the completion call (`llmFailed`). -/
def summarise_paper (paper : Paper) (fetch : Nat → FetchOutcome)
    (llm : Str → Except Unit Str) :
    Except SummariseError (Str × Str × Nat × Nat) :=
  match fetchPhase paper fetch with
  | .error _ => .error .fetchRaised
  | .ok st =>
    match llm (summariseDoc paper st) with
    | .error _ => .error .llmFailed
    | .ok summary => .ok (summary, summariseDoc paper st, st.2.1, st.2.2)

/-!
Claim C10: `Author.__str__` case analysis.
-/

/-- C10: for an `Author`, `str(author)` is `"Unknown Author"` exactly when
both name components are empty; a single non-empty component is returned
alone with no comma; two non-empty components give `"last, first"`. -/
theorem author_str_spec (a : Author) :
    (a.first_name = [] → a.last_name = [] → a.str = chars ("Unknown Author"))
    ∧ (a.first_name = [] → a.last_name ≠ [] → a.str = a.last_name)
    ∧ (a.first_name ≠ [] → a.last_name = [] → a.str = a.first_name)
    ∧ (a.first_name ≠ [] → a.last_name ≠ [] →
        a.str = a.last_name ++ chars (", ") ++ a.first_name) := by
  refine ⟨?_, ?_, ?_, ?_⟩ <;> intro h1 h2 <;>
    simp [Author.str, h1, h2]

/-- Witness for C10 at concrete authors covering all four cases. -/
theorem author_str_spec_witness :
    (Author.mk [] []).str = chars ("Unknown Author")
    ∧ (Author.mk [] (chars ("Doe"))).str = chars ("Doe")
    ∧ (Author.mk (chars ("Jane")) []).str = chars ("Jane")
    ∧ (Author.mk (chars ("Jane")) (chars ("Doe"))).str
        = chars ("Doe") ++ chars (", ") ++ chars ("Jane") :=
  ⟨(author_str_spec _).1 rfl rfl,
   (author_str_spec _).2.1 rfl (by decide),
   (author_str_spec _).2.2.1 (by decide) rfl,
   (author_str_spec _).2.2.2 (by decide) (by decide)⟩

/-!
Claim C2: `Paper.get_citation` format law.
-/

/-- The parenthesis characters removed from a string (one reading of "the
narrative form with its outer parens stripped"). -/
def stripParenChars (s : Str) : Str :=
  s.filter (fun c => c ≠ '(' && c ≠ ')')

/-- The outermost parenthesis pair removed, when the string is wrapped in
one (the other reading of "outer parens stripped"). -/
def stripOuterParens (s : Str) : Str :=
  if s.head? = some '(' ∧ s.getLast? = some ')' then (s.drop 1).dropLast else s

/-- Counterexample to C2 as stated: for the paper with single author
`X` and year 2020 the narrative citation is `"X (2020)"` and the
parenthetical citation is `"(X, 2020)"`, which is not the narrative form
with parens stripped re-wrapped in parentheses (under either reading of
"stripped"): the comma is inserted as well. -/
theorem get_citation_rewrap_counterexample :
    let p : Paper := ⟨chars ("T"), [⟨chars ("F"), chars ("X")⟩], 2020, [], [], []⟩
    p.get_citation false = chars ("X (2020)")
    ∧ p.get_citation true = chars ("(X, 2020)")
    ∧ p.get_citation true
        ≠ chars ("(") ++ stripParenChars (p.get_citation false) ++ chars (")")
    ∧ p.get_citation true
        ≠ chars ("(") ++ stripOuterParens (p.get_citation false) ++ chars (")") := by
  refine ⟨by decide, by decide, by decide, by decide⟩

/-- C2 (amended): the narrative citation is
`"Unknown Author (Year)"` / `"Last (Year)"` / `"Last1 and Last2 (Year)"` /
`"Last1 et al. (Year)"` for 0/1/2/3-or-more authors, with the year rendered
literally or as `"n.d."` for `-1`; the parenthetical form replaces the
narrative form's `" (Year)"` suffix by `", Year"` and wraps the whole
string in parentheses (it is not merely the narrative form re-wrapped). -/
theorem get_citation_spec (p : Paper) :
    (p.authors = [] →
      p.get_citation false
        = chars ("Unknown Author") ++ chars (" (")
          ++ (if p.year ≠ -1 then pyIntStr p.year else chars ("n.d.")) ++ chars (")"))
    ∧ (∀ a, p.authors = [a] →
      p.get_citation false
        = a.last_name ++ chars (" (")
          ++ (if p.year ≠ -1 then pyIntStr p.year else chars ("n.d.")) ++ chars (")"))
    ∧ (∀ a b, p.authors = [a, b] →
      p.get_citation false
        = a.last_name ++ chars (" and ") ++ b.last_name ++ chars (" (")
          ++ (if p.year ≠ -1 then pyIntStr p.year else chars ("n.d.")) ++ chars (")"))
    ∧ (∀ a b c rest, p.authors = a :: b :: c :: rest →
      p.get_citation false
        = a.last_name ++ chars (" et al.") ++ chars (" (")
          ++ (if p.year ≠ -1 then pyIntStr p.year else chars ("n.d.")) ++ chars (")"))
    ∧ (∃ s, p.get_citation false
          = s ++ chars (" (")
            ++ (if p.year ≠ -1 then pyIntStr p.year else chars ("n.d.")) ++ chars (")")
        ∧ p.get_citation true
          = chars ("(") ++ s ++ chars (", ")
            ++ (if p.year ≠ -1 then pyIntStr p.year else chars ("n.d.")) ++ chars (")")) := by
  obtain ⟨title, authors, year, venue, url, summary⟩ := p
  refine ⟨?_, ?_, ?_, ?_, ?_⟩
  · intro h
    subst h
    simp [Paper.get_citation]
  · intro a h
    subst h
    simp [Paper.get_citation]
  · intro a b h
    subst h
    simp [Paper.get_citation]
  · intro a b c rest h
    subst h
    simp [Paper.get_citation]
  · match authors with
    | [] => exact ⟨chars ("Unknown Author"), by simp [Paper.get_citation], by simp [Paper.get_citation]⟩
    | [a] => exact ⟨a.last_name, by simp [Paper.get_citation], by simp [Paper.get_citation]⟩
    | [a, b] =>
      exact ⟨a.last_name ++ chars (" and ") ++ b.last_name,
        by simp [Paper.get_citation], by simp [Paper.get_citation]⟩
    | a :: b :: c :: rest =>
      exact ⟨a.last_name ++ chars (" et al."),
        by simp [Paper.get_citation], by simp [Paper.get_citation]⟩

/-- Witness for C2 (amended) at concrete papers covering every case. -/
theorem get_citation_spec_witness :
    ((⟨chars ("T"), [], 2020, [], [], []⟩ : Paper).get_citation false
      = chars ("Unknown Author") ++ chars (" (") ++ chars ("2020") ++ chars (")"))
    ∧ ((⟨chars ("T"), [⟨chars ("F"), chars ("X")⟩], -1, [], [], []⟩ : Paper).get_citation false
      = chars ("X") ++ chars (" (") ++ chars ("n.d.") ++ chars (")"))
    ∧ ((⟨chars ("T"), [⟨[], chars ("X")⟩, ⟨[], chars ("Y")⟩], 2021, [], [], []⟩ : Paper).get_citation false
      = chars ("X") ++ chars (" and ") ++ chars ("Y") ++ chars (" (") ++ chars ("2021") ++ chars (")"))
    ∧ ((⟨chars ("T"), [⟨[], chars ("X")⟩, ⟨[], chars ("Y")⟩, ⟨[], chars ("Z")⟩], 2022, [], [], []⟩ : Paper).get_citation false
      = chars ("X") ++ chars (" et al.") ++ chars (" (") ++ chars ("2022") ++ chars (")")) := by
  refine ⟨?_, ?_, ?_, ?_⟩
  · have h := (get_citation_spec ⟨chars ("T"), [], 2020, [], [], []⟩).1 rfl
    simpa using h
  · have h := (get_citation_spec ⟨chars ("T"), [⟨chars ("F"), chars ("X")⟩], -1, [], [], []⟩).2.1
      ⟨chars ("F"), chars ("X")⟩ rfl
    simpa using h
  · have h := (get_citation_spec ⟨chars ("T"), [⟨[], chars ("X")⟩, ⟨[], chars ("Y")⟩], 2021, [], [], []⟩).2.2.1
      ⟨[], chars ("X")⟩ ⟨[], chars ("Y")⟩ rfl
    simpa using h
  · have h := (get_citation_spec ⟨chars ("T"), [⟨[], chars ("X")⟩, ⟨[], chars ("Y")⟩, ⟨[], chars ("Z")⟩], 2022, [], [], []⟩).2.2.2.1
      ⟨[], chars ("X")⟩ ⟨[], chars ("Y")⟩ ⟨[], chars ("Z")⟩ [] rfl
    simpa using h

/-- Packing a valid codepoint and unpacking it is the identity. -/
theorem char_toNat_ofNat {m : Nat} (h : m.isValidChar) :
    (Char.ofNat m).toNat = m := by
  rw [Char.ofNat]
  rw [dif_pos h]
  rfl

/-- A lowercased character is never the uppercase letter `O`. -/
theorem toLower_ne_upper_O (c : Char) : Char.toLower c ≠ 'O' := by
  intro hc
  rw [Char.toLower] at hc
  by_cases h : c.toNat ≥ 65 ∧ c.toNat ≤ 90
  · rw [if_pos h] at hc
    have hvalid : (c.toNat + 32).isValidChar := Or.inl (by omega)
    have hval := congrArg Char.toNat hc
    rw [char_toNat_ofNat hvalid] at hval
    have : Char.toNat 'O' = 79 := by decide
    omega
  · rw [if_neg h] at hc
    rw [hc] at h
    exact h (by decide)

/-!
Claim C5: query post-processing (`Queries.__post_init__`).
-/

/-- C5: the OR-split branch of `Queries.__post_init__` is dead code.  The
source tests `" OR " in query.lower()`: a lowercased string can never
contain the uppercase `" OR "`, so the split never fires, contradicting the
comment above the loop ("Split queries with 'OR' statements into separate
queries").  On the spec's own example input the result is a single query
with the OR clause intact (only `" AND "` removal happens), not the two
queries the spec (and the code's intent) describe. -/
theorem queries_or_split_dead :
    queriesPostInit [chars ("deep learning OR machine learning AND healthcare")]
      = some [chars ("deep learning OR machine learning healthcare")]
    ∧ (∀ q : Str, pyIn (chars (" OR ")) (pyLower q) = false) := by
  constructor
  · decide
  · intro q
    rw [pyIn]
    rw [List.any_eq_false]
    intro i hi
    rw [Bool.not_eq_true]
    rw [matchAt]
    rw [decide_eq_false_iff_not]
    intro heq
    have hO : 'O' ∈ ((pyLower q).drop i).take (chars (" OR ")).length := by
      rw [heq]
      decide
    have h1 : 'O' ∈ pyLower q :=
      List.mem_of_mem_drop (List.mem_of_mem_take hO)
    rw [pyLower] at h1
    obtain ⟨c, _, hc⟩ := List.mem_map.mp h1
    exact toLower_ne_upper_O c hc

/-!
Claim C6: `find_papers` status handling.
-/

/-- Counterexample to C6 as stated: a 400 response whose body does not
contain the exhausted-offset message is converted into a normal empty
result list, not surfaced as a fatal error. -/
theorem find_papers_bad_request_counterexample :
    find_papers [⟨400, chars ("bad query string"), []⟩] = .found []
    ∧ find_papers [⟨400, chars ("bad query string"), []⟩] ≠ .fatal 400 := by
  constructor
  · decide
  · decide

/-- C6 (amended): a 429 response retries; a 400 response with the
exhausted-offset message in its lowercased body yields the distinguished
exhausted result (not an empty list); a 400 response without that message
yields an empty result list (logged, not raised); any other 4xx/5xx status
is fatal for the call; any remaining status yields the parsed papers. -/
theorem find_papers_status_spec (r : IndexResponse) (rest : List IndexResponse) :
    (r.status = 429 → find_papers (r :: rest) = find_papers rest)
    ∧ (r.status = 400 → pyIn exhaustedMsg (pyLower r.text) = true →
        find_papers (r :: rest) = .exhausted)
    ∧ (r.status = 400 → pyIn exhaustedMsg (pyLower r.text) = false →
        find_papers (r :: rest) = .found [])
    ∧ (r.status ≠ 429 → r.status ≠ 400 → 400 ≤ r.status → r.status ≤ 599 →
        find_papers (r :: rest) = .fatal r.status)
    ∧ (r.status ≠ 429 → r.status < 400 →
        find_papers (r :: rest) = .found r.payload) := by
  refine ⟨?_, ?_, ?_, ?_, ?_⟩
  · intro h429
    simp [find_papers, h429]
  · intro h400 hmsg
    simp [find_papers, h400, hmsg]
  · intro h400 hmsg
    simp [find_papers, h400, hmsg]
  · intro h429 h400 hlo hhi
    simp [find_papers, h429, h400, hlo, hhi]
  · intro h429 hlt
    have h400 : r.status ≠ 400 := by omega
    have : ¬ (400 ≤ r.status ∧ r.status ≤ 599) := by omega
    simp [find_papers, h429, h400, this]

/-- Witness for C6 (amended) at a concrete response of each kind. -/
theorem find_papers_status_spec_witness :
    find_papers [⟨429, [], []⟩, ⟨200, [], []⟩] = find_papers [⟨200, [], []⟩]
    ∧ find_papers [⟨400, chars ("sorry, this limit and/or offset is not available"), []⟩]
        = .exhausted
    ∧ find_papers [⟨400, chars ("bad"), []⟩] = .found []
    ∧ find_papers [⟨500, [], []⟩] = .fatal 500
    ∧ find_papers [⟨200, [], [⟨chars ("T"), [], 2020, [], [], []⟩]⟩]
        = .found [⟨chars ("T"), [], 2020, [], [], []⟩] :=
  ⟨(find_papers_status_spec _ _).1 rfl,
   (find_papers_status_spec _ _).2.1 rfl (by decide),
   (find_papers_status_spec _ _).2.2.1 rfl (by decide),
   (find_papers_status_spec _ _).2.2.2.1 (by decide) (by decide) (by decide) (by decide),
   (find_papers_status_spec _ _).2.2.2.2 (by decide) (by decide)⟩

/-!
Claim C9: the fully-cited draft is returned unchanged.
-/

/-- C9: when every paper's citation (in one of its two surface forms)
already occurs in the first draft, `write_literature_survey` returns the
first draft unchanged: the repair completion call is not made (the Boolean
is `false`) and the References section is untouched. -/
theorem write_literature_survey_frame (relevant_papers : List Paper)
    (first_draft : Str) (revise : Str → Str)
    (h : ∀ p ∈ relevant_papers, citedInText p first_draft = true) :
    write_literature_survey relevant_papers first_draft revise
      = some (first_draft, false) := by
  have hfilter : relevant_papers.filter
      (fun p => ! citedInText p first_draft) = [] := by
    rw [List.filter_eq_nil_iff]
    intro p hp
    simp [h p hp]
  rw [write_literature_survey]
  simp only [hfilter]
  simp
  intro x hx hfalse
  rw [h x hx] at hfalse
  cases hfalse

/-- Witness for C9 at a concrete paper and draft. -/
theorem write_literature_survey_frame_witness :
    write_literature_survey [⟨chars ("T"), [], 2020, [], [], []⟩]
      (chars ("A survey. Unknown Author (2020) said things.\n\n## References\n\nAn entry."))
      id
      = some (chars ("A survey. Unknown Author (2020) said things.\n\n## References\n\nAn entry."), false) :=
  write_literature_survey_frame _ _ _ (by decide)

/-!
Claim C8: `summarise_paper` failure semantics.
-/

/-- Fetch outcomes after which the retry loop sleeps one second and tries
again: any `HTTPStatusError` other than 403, and connection-level errors. -/
def retryableOutcome : FetchOutcome → Bool
  | .httpError status => decide (status ≠ 403)
  | .connectError => true
  | .ok _ => false
  | .conversionError => false
  | .uncaughtError => false

/-- Fetch outcomes that abort the retry loop immediately with no content: a
403 response and a content-conversion error. -/
def abortingOutcome : FetchOutcome → Bool
  | .httpError status => decide (status = 403)
  | .conversionError => true
  | .ok _ => false
  | .connectError => false
  | .uncaughtError => false

/-- When no fetch attempt hits an uncaught exception, the retry loop
terminates normally, with at most as many attempts as it has iterations
and at most one sleep per attempt. -/
theorem fetchLoop_no_raise {fetch : Nat → FetchOutcome}
    (hfetch : ∀ k, fetch k ≠ FetchOutcome.uncaughtError) :
    ∀ n a, ∃ c att sl, fetchLoop fetch a n = Except.ok (c, att, sl)
      ∧ att ≤ n ∧ sl ≤ att := by
  intro n
  induction n with
  | zero => intro a; exact ⟨[], 0, 0, rfl, by omega, by omega⟩
  | succ m ih =>
    intro a
    rcases hf : fetch a with c | status | _ | _ | _
    · exact ⟨c, 1, 0, by simp [fetchLoop, hf], by omega, by omega⟩
    · by_cases h403 : status = 403
      · exact ⟨[], 1, 0, by simp [fetchLoop, hf, h403], by omega, by omega⟩
      · obtain ⟨c, att, sl, hrec, h1, h2⟩ := ih (a + 1)
        exact ⟨c, att + 1, sl + 1, by simp [fetchLoop, hf, h403, hrec],
          by omega, by omega⟩
    · obtain ⟨c, att, sl, hrec, h1, h2⟩ := ih (a + 1)
      exact ⟨c, att + 1, sl + 1, by simp [fetchLoop, hf, hrec], by omega, by omega⟩
    · exact ⟨[], 1, 0, by simp [fetchLoop, hf], by omega, by omega⟩
    · exact absurd hf (hfetch a)

/-- An aborting outcome at attempt `k`, after `k` retryable failures, stops
the loop with no content after exactly `k + 1` attempts and `k` sleeps. -/
theorem fetchLoop_abort (fetch : Nat → FetchOutcome) :
    ∀ k n a, k < n →
      (∀ j, j < k → retryableOutcome (fetch (a + j)) = true) →
      abortingOutcome (fetch (a + k)) = true →
      fetchLoop fetch a n = Except.ok ([], k + 1, k) := by
  intro k
  induction k with
  | zero =>
    intro n a hn _ habort
    obtain ⟨m, rfl⟩ : ∃ m, n = m + 1 := ⟨n - 1, by omega⟩
    rcases hf : fetch a with c | status | _ | _ | _ <;>
      rw [Nat.add_zero] at habort <;>
      rw [hf] at habort <;> simp [abortingOutcome] at habort
    · simp [fetchLoop, hf, habort]
    · simp [fetchLoop, hf]
  | succ k ih =>
    intro n a hn hretry habort
    obtain ⟨m, rfl⟩ : ∃ m, n = m + 1 := ⟨n - 1, by omega⟩
    have hr0 : retryableOutcome (fetch (a + 0)) = true := hretry 0 (by omega)
    rw [Nat.add_zero] at hr0
    have hrec : fetchLoop fetch (a + 1) m = Except.ok ([], k + 1, k) := by
      apply ih m (a + 1) (by omega)
      · intro j hj
        have := hretry (j + 1) (by omega)
        rw [show a + 1 + j = a + (j + 1) by omega]
        exact this
      · rw [show a + 1 + k = a + (k + 1) by omega]
        exact habort
    rcases hf : fetch a with c | status | _ | _ | _ <;>
      rw [hf] at hr0 <;> simp [retryableOutcome] at hr0 <;>
      simp [fetchLoop, hf, hrec]
    exact fun h => absurd h hr0

/-- The fallback document is never empty. -/
theorem fallbackDoc_ne_nil (paper : Paper) : fallbackDoc paper ≠ [] := by
  rw [fallbackDoc]
  intro h
  have := congrArg List.length h
  simp [chars] at this

/-- Counterexample to C8 as stated: a fetch failure outside the handled
exception classes — here an `httpx.ReadTimeout`-style error on the first
attempt — propagates out of `summarise_paper` even though the completion
service (modelled as constantly succeeding) never fails, so the function
does raise for a document-fetch failure. -/
theorem summarise_paper_raises_counterexample :
    summarise_paper ⟨chars ("T"), [], 2020, [], chars ("http x"), []⟩
        (fun _ => FetchOutcome.uncaughtError)
        (fun _ => Except.ok (chars ("ok")))
      = Except.error SummariseError.fetchRaised := rfl

/-- C8 (amended): for the fetch failures the retry loop handles — HTTP
status errors, connection errors and content-conversion errors —
`summarise_paper` never raises: when additionally the completion service
succeeds it returns a summary, making at most 3 fetch attempts with at most
one one-second sleep per attempt; the document sent to the completion
service is never empty, and equals the fallback document built from the
paper's title and stored summary whenever no content was obtained (empty
URL, or a fetch loop ending with empty content); a 403 response or a
conversion error at attempt `k` (after `k` retryable failures) aborts the
loop at exactly `k + 1` attempts.  (An unhandled fetch exception, or a
completion failure, does propagate.) -/
theorem summarise_paper_spec (paper : Paper) (fetch : Nat → FetchOutcome)
    (llm : Str → Except Unit Str)
    (hfetch : ∀ k, fetch k ≠ FetchOutcome.uncaughtError)
    (hllm : ∀ c, ∃ s, llm c = Except.ok s) :
    (∃ s c a sl, summarise_paper paper fetch llm = Except.ok (s, c, a, sl)
      ∧ a ≤ 3 ∧ sl ≤ a ∧ c ≠ []
      ∧ (paper.url = [] → c = fallbackDoc paper)
      ∧ (∀ a' sl', fetchLoop fetch 0 3 = Except.ok ([], a', sl') →
          c = fallbackDoc paper))
    ∧ (∀ k, k < 3 →
        (∀ j, j < k → retryableOutcome (fetch j) = true) →
        abortingOutcome (fetch k) = true → paper.url ≠ [] →
        ∃ s, summarise_paper paper fetch llm
          = Except.ok (s, fallbackDoc paper, k + 1, k)) := by
  have hdocnil : ∀ st : Str × Nat × Nat, st.1 = [] →
      summariseDoc paper st = fallbackDoc paper := by
    intro st hst
    rw [summariseDoc, hst]
    rw [show truncateContent [] = [] by rw [truncateContent]; simp]
    simp
  constructor
  · by_cases hurl : paper.url = []
    · have hphase : fetchPhase paper fetch = Except.ok ([], 0, 0) := by
        rw [fetchPhase, if_neg (by simp [hurl])]
      obtain ⟨s, hs⟩ := hllm (summariseDoc paper ([], 0, 0))
      refine ⟨s, summariseDoc paper ([], 0, 0), 0, 0, ?_, by omega, by omega, ?_, ?_, ?_⟩
      · rw [summarise_paper, hphase]
        dsimp only
        rw [hs]
      · rw [hdocnil _ rfl]
        exact fallbackDoc_ne_nil paper
      · intro _
        exact hdocnil _ rfl
      · intro _ _ _
        exact hdocnil _ rfl
    · obtain ⟨c0, att, sl, hloop, h1, h2⟩ := fetchLoop_no_raise hfetch 3 0
      have hphase : fetchPhase paper fetch = Except.ok (c0, att, sl) := by
        rw [fetchPhase, if_pos hurl, hloop]
      obtain ⟨s, hs⟩ := hllm (summariseDoc paper (c0, att, sl))
      refine ⟨s, summariseDoc paper (c0, att, sl), att, sl, ?_, h1, h2, ?_, ?_, ?_⟩
      · rw [summarise_paper, hphase]
        dsimp only
        rw [hs]
      · rw [summariseDoc]
        split
        · exact fallbackDoc_ne_nil paper
        · assumption
      · intro hcontra
        exact absurd hcontra hurl
      · intro a' sl' hloop'
        rw [hloop] at hloop'
        have hc0 : c0 = [] := by
          injection hloop' with h'
          exact congrArg Prod.fst h'
        exact hdocnil _ hc0
  · intro k hk hretry habort hurl
    have hloop : fetchLoop fetch 0 3 = Except.ok ([], k + 1, k) := by
      have := fetchLoop_abort fetch k 3 0 hk
        (by intro j hj; simpa using hretry j hj)
        (by simpa using habort)
      exact this
    have hphase : fetchPhase paper fetch = Except.ok ([], k + 1, k) := by
      rw [fetchPhase, if_pos hurl, hloop]
    obtain ⟨s, hs⟩ := hllm (summariseDoc paper ([], k + 1, k))
    refine ⟨s, ?_⟩
    rw [summarise_paper, hphase]
    dsimp only
    rw [hs]
    rw [hdocnil _ rfl]

/-- Witness for C8 (amended): a connection error followed by a 403 gives
the fallback document after exactly two attempts and one sleep. -/
theorem summarise_paper_spec_witness :
    ∃ s, summarise_paper
        ⟨chars ("T"), [], 2020, [], chars ("http x"), chars ("S")⟩
        (fun n => match n with | 0 => .connectError | _ => .httpError 403)
        (fun _ => Except.ok (chars ("ok")))
      = Except.ok (s,
          fallbackDoc ⟨chars ("T"), [], 2020, [], chars ("http x"), chars ("S")⟩,
          2, 1) :=
  (summarise_paper_spec _ _ _
    (by intro k
        cases k with
        | zero => decide
        | succ n =>
          exact (by decide : FetchOutcome.httpError 403 ≠ FetchOutcome.uncaughtError))
    (fun c => ⟨chars ("ok"), rfl⟩)).2 1
    (by omega)
    (by intro j hj
        interval_cases j
        decide)
    (by decide)
    (by decide)

/-!
Claim C7: deduplication in `get_all_papers`.
-/

/-- Appending the relevance-filtered, membership-filtered batch to a
duplicate-free accumulator keeps it duplicate-free, provided the batch
itself is duplicate-free. -/
theorem nodup_append_filter (acc l : List Paper) (rel : Paper → Bool)
    (hacc : acc.Nodup) (hl : l.Nodup) :
    (acc ++ (l.filter (fun p => ¬ p ∈ acc)).filter rel).Nodup := by
  rw [List.nodup_append]
  refine ⟨hacc, (hl.filter _).filter _, ?_⟩
  intro x hx hmem
  have h1 : x ∈ l.filter (fun p => decide ¬(p ∈ acc)) :=
    List.mem_of_mem_filter hmem
  have h2 := (List.mem_filter.mp h1).2
  simp at h2
  exact h2 hx

/-- A sweep of the query list preserves duplicate-freedom of the
accumulated papers, for any index oracle returning duplicate-free pages. -/
theorem sweepQueries_nodup (find : Str → Nat → Option (List Paper))
    (rel : Paper → Bool) (min_num offset : Nat)
    (hfind : ∀ q o l, find q o = some l → l.Nodup) :
    ∀ fuel i queries acc, acc.Nodup →
      (sweepQueries find rel min_num offset fuel i queries acc).2.Nodup := by
  intro fuel
  induction fuel with
  | zero => intro i queries acc hacc; simpa [sweepQueries] using hacc
  | succ f ih =>
    intro i queries acc hacc
    rw [sweepQueries]
    split
    · next h =>
      cases hf : find (queries.get ⟨i, h⟩) offset with
      | none =>
        simp only [hf]
        exact ih (i + 1) _ acc hacc
      | some papers =>
        have hpnd : papers.Nodup := hfind _ _ _ hf
        have hnext := nodup_append_filter acc papers rel hacc hpnd
        simp only [hf]
        split
        · exact hnext
        · exact ih (i + 1) queries _ hnext
    · exact hacc

/-- The outer collection loop preserves duplicate-freedom. -/
theorem collectLoop_nodup (find : Str → Nat → Option (List Paper))
    (rel : Paper → Bool) (min_num batch : Nat)
    (hfind : ∀ q o l, find q o = some l → l.Nodup) :
    ∀ fuel offset queries acc, acc.Nodup →
      (collectLoop find rel min_num batch fuel offset queries acc).Nodup := by
  intro fuel
  induction fuel with
  | zero => intro offset queries acc hacc; simpa [collectLoop] using hacc
  | succ f ih =>
    intro offset queries acc hacc
    rw [collectLoop]
    split
    · exact ih _ _ _ (sweepQueries_nodup find rel min_num offset hfind _ _ _ _ hacc)
    · exact hacc

/-- C7 (amended): `get_all_papers` returns a duplicate-free list provided
every page returned by the paper index is itself duplicate-free; a page
containing the same paper twice defeats the membership filter, which only
compares against previously accumulated papers. -/
theorem get_all_papers_nodup (find : Str → Nat → Option (List Paper))
    (rel : Paper → Bool) (min_num batch fuel : Nat) (queries : List Str)
    (hfind : ∀ q o l, find q o = some l → l.Nodup) :
    (get_all_papers find rel min_num batch fuel queries).Nodup :=
  collectLoop_nodup find rel min_num batch hfind fuel 0 queries [] List.nodup_nil

/-- Witness for C7 (amended) with a concrete duplicate-free index oracle. -/
theorem get_all_papers_nodup_witness :
    (get_all_papers
      (fun _ off => if off = 0
        then some [⟨chars ("A"), [], 2020, [], [], []⟩, ⟨chars ("B"), [], 2021, [], [], []⟩]
        else none)
      (fun _ => true) 2 5 1 [chars ("q")]).Nodup :=
  get_all_papers_nodup _ _ _ _ _ _ (by
    intro q o l h
    split at h
    · cases h
      decide
    · cases h)

/-- Counterexample to C7 as stated: a single page containing the same paper
twice passes the membership filter (which only checks the accumulated list)
and both copies survive into the result. -/
theorem get_all_papers_dup_counterexample :
    get_all_papers
        (fun _ off => if off = 0
          then some [⟨chars ("T"), [], 2020, [], [], []⟩, ⟨chars ("T"), [], 2020, [], [], []⟩]
          else none)
        (fun _ => true) 2 5 1 [chars ("q")]
      = [⟨chars ("T"), [], 2020, [], [], []⟩, ⟨chars ("T"), [], 2020, [], [], []⟩]
    ∧ ¬ (get_all_papers
        (fun _ off => if off = 0
          then some [⟨chars ("T"), [], 2020, [], [], []⟩, ⟨chars ("T"), [], 2020, [], [], []⟩]
          else none)
        (fun _ => true) 2 5 1 [chars ("q")]).Nodup := by
  constructor
  · decide
  · decide

/-!
Occurrence machinery for the `"## References"` splits.
-/

/-- Take more than a prefix's length: the prefix survives whole. -/
theorem take_append_len {A x : Str} {n : Nat} (h : A.length ≤ n) :
    (A ++ x).take n = A ++ x.take (n - A.length) := by
  have hn : n = A.length + (n - A.length) := by omega
  conv_lhs => rw [hn]
  rw [List.take_append]

/-- Drop more than a prefix's length: the prefix disappears whole. -/
theorem drop_append_len {A x : Str} {n : Nat} (h : A.length ≤ n) :
    (A ++ x).drop n = x.drop (n - A.length) := by
  have hn : n = A.length + (n - A.length) := by omega
  conv_lhs => rw [hn]
  rw [List.drop_append]

/-- Any match of a non-empty needle yields substring containment. -/
theorem pyIn_of_matchAt {needle s : Str} {i : Nat} (hne : needle ≠ [])
    (h : matchAt needle s i = true) : pyIn needle s = true := by
  have hb := matchAt_length_le h
  have hlen : 0 < needle.length := List.length_pos.mpr hne
  rw [pyIn, List.any_eq_true]
  exact ⟨i, List.mem_range.mpr (by omega), h⟩

/-- If the needle is not contained in `s`, it matches at no index. -/
theorem matchAt_eq_false_of_pyIn {needle s : Str} (h : pyIn needle s = false)
    (i : Nat) : matchAt needle s i = false := by
  by_cases hne : needle = []
  · exfalso
    subst hne
    rw [pyIn] at h
    have h0 := List.any_eq_false.mp h 0 (List.mem_range.mpr (by omega))
    simp [matchAt] at h0
  · cases hm : matchAt needle s i
    · rfl
    · rw [pyIn_of_matchAt hne hm] at h
      cases h

/-- The needle matches at the junction of `b ++ (needle ++ r)`. -/
theorem matchAt_at_junction (m b r : Str) :
    matchAt m (b ++ (m ++ r)) b.length = true := by
  rw [matchAt]
  rw [List.drop_left]
  rw [List.take_left]
  exact decide_eq_true rfl

/-- No match strictly before the junction, provided the needle is not
contained in the prefix and the needle is aperiodic (no non-trivial suffix
of it is one of its prefixes). -/
theorem matchAt_before_junction {m b : Str} (r : Str)
    (haper : ∀ k, 0 < k → k < m.length → m.drop k ≠ m.take (m.length - k))
    (hb : pyIn m b = false) {i : Nat} (hi : i < b.length) :
    matchAt m (b ++ (m ++ r)) i = false := by
  cases hmatch : matchAt m (b ++ (m ++ r)) i
  · rfl
  exfalso
  have heq : ((b ++ (m ++ r)).drop i).take m.length = m :=
    of_decide_eq_true hmatch
  rw [List.drop_append_of_le_length (by omega)] at heq
  have hdlen : (b.drop i).length = b.length - i := by simp
  by_cases hcase : i + m.length ≤ b.length
  · rw [List.take_append_of_le_length (by omega)] at heq
    have : matchAt m b i = true := decide_eq_true heq
    rw [matchAt_eq_false_of_pyIn hb i] at this
    cases this
  · have hk1 : b.length - i < m.length := by omega
    rw [take_append_len (by omega)] at heq
    rw [hdlen] at heq
    rw [List.take_append_of_le_length (by omega)] at heq
    have hdrop : m.drop (b.length - i) = m.take (m.length - (b.length - i)) := by
      have := congrArg (List.drop (b.length - i)) heq
      rw [List.drop_left' hdlen] at this
      rw [this]
    exact haper (b.length - i) (by omega) hk1 hdrop

/-- No match strictly after the junction, provided the needle is not
contained in the suffix and the needle is aperiodic. -/
theorem matchAt_after_junction {m r : Str} (b : Str)
    (haper : ∀ k, 0 < k → k < m.length → m.drop k ≠ m.take (m.length - k))
    (hr : pyIn m r = false) {i : Nat} (hi : b.length < i) :
    matchAt m (b ++ (m ++ r)) i = false := by
  cases hmatch : matchAt m (b ++ (m ++ r)) i
  · rfl
  exfalso
  have heq : ((b ++ (m ++ r)).drop i).take m.length = m :=
    of_decide_eq_true hmatch
  rw [drop_append_len (by omega)] at heq
  by_cases hcase : m.length ≤ i - b.length
  · rw [drop_append_len (by omega)] at heq
    have : matchAt m r (i - b.length - m.length) = true := decide_eq_true heq
    rw [matchAt_eq_false_of_pyIn hr _] at this
    cases this
  · have hj1 : 0 < i - b.length := by omega
    rw [List.drop_append_of_le_length (by omega)] at heq
    have hdlen : (m.drop (i - b.length)).length = m.length - (i - b.length) := by simp
    rw [take_append_len (by omega)] at heq
    rw [hdlen] at heq
    have hdrop : m.drop (i - b.length) = m.take (m.length - (i - b.length)) := by
      have := congrArg (List.take (m.length - (i - b.length))) heq
      rw [List.take_append_of_le_length (by omega)] at this
      rw [List.take_of_length_le (by omega)] at this
      exact this
    exact haper (i - b.length) hj1 (by omega) hdrop

/-- The occurrence list filters an increasing range, so its head, when
matched at `i` with nothing before, is `i`. -/
theorem occIdxs_head {m t : Str} {i : Nat} (hi : i ≤ t.length)
    (hmatch : matchAt m t i = true)
    (hbefore : ∀ j, j < i → matchAt m t j = false) :
    (occIdxs m t).head? = some i := by
  rw [occIdxs]
  rw [show t.length + 1 = (i + 1) + (t.length - i) by omega]
  rw [List.range_add, List.filter_append, List.range_succ, List.filter_append]
  have h1 : (List.range i).filter (fun j => matchAt m t j) = [] := by
    rw [List.filter_eq_nil_iff]
    intro j hj
    rw [hbefore j (List.mem_range.mp hj)]
    simp
  have h2 : [i].filter (fun j => matchAt m t j) = [i] := by
    simp [hmatch]
  rw [h1, h2]
  simp

/-- Likewise the last occurrence, when matched at `i` with nothing after,
is `i`. -/
theorem occIdxs_getLast {m t : Str} {i : Nat} (hi : i ≤ t.length)
    (hmatch : matchAt m t i = true)
    (hafter : ∀ j, i < j → matchAt m t j = false) :
    (occIdxs m t).getLast? = some i := by
  rw [occIdxs]
  rw [show t.length + 1 = (i + 1) + (t.length - i) by omega]
  rw [List.range_add, List.filter_append, List.range_succ, List.filter_append]
  have h2 : [i].filter (fun j => matchAt m t j) = [i] := by
    simp [hmatch]
  have h3 : ((List.range (t.length - i)).map ((i + 1) + ·)).filter
      (fun j => matchAt m t j) = [] := by
    rw [List.filter_eq_nil_iff]
    intro j hj
    obtain ⟨j', _, rfl⟩ := List.mem_map.mp hj
    rw [hafter _ (by omega)]
    simp
  rw [h2, h3]
  rw [List.append_nil]
  exact List.getLast?_concat _

/-- First-occurrence split at the junction: only needs the marker to be
absent from the prefix. -/
theorem split1_junction {m : Str} (b r : Str)
    (haper : ∀ k, 0 < k → k < m.length → m.drop k ≠ m.take (m.length - k))
    (hb : pyIn m b = false) :
    split1 m (b ++ (m ++ r)) = some (b, r) := by
  have hhead := occIdxs_head (m := m) (t := b ++ (m ++ r)) (i := b.length)
    (by simp) (matchAt_at_junction m b r)
    (fun j hj => matchAt_before_junction r haper hb hj)
  rw [split1, hhead]
  dsimp only
  rw [List.take_left, List.drop_append, List.drop_left]

/-- Last-occurrence split at the junction: only needs the marker to be
absent from the suffix. -/
theorem rsplit1_junction {m : Str} (b r : Str)
    (haper : ∀ k, 0 < k → k < m.length → m.drop k ≠ m.take (m.length - k))
    (hr : pyIn m r = false) :
    rsplit1 m (b ++ (m ++ r)) = some (b, r) := by
  have hlast := occIdxs_getLast (m := m) (t := b ++ (m ++ r)) (i := b.length)
    (by simp) (matchAt_at_junction m b r)
    (fun j hj => matchAt_after_junction b haper hr hj)
  rw [rsplit1, hlast]
  dsimp only
  rw [List.take_left, List.drop_append, List.drop_left]

/-- The References marker is aperiodic: no non-trivial suffix is a
prefix. -/
theorem refsMarker_aperiodic :
    ∀ k, 0 < k → k < refsMarker.length →
      refsMarker.drop k ≠ refsMarker.take (refsMarker.length - k) := by
  have h : ∀ k, k < refsMarker.length →
      (0 < k → refsMarker.drop k ≠ refsMarker.take (refsMarker.length - k)) := by
    decide
  intro k h0 hk
  exact h k hk h0

/-- The References marker is non-empty. -/
theorem refsMarker_ne_nil : refsMarker ≠ [] := by decide

/-!
Claim C4: where the pruning step splits the survey.
-/

/-- Counterexample to C4 as stated: `rsplit("## References", 1)` splits at
the last occurrence of the heading, not the first.  On a text containing
the marker twice, the body handed back by the split (and by the pruning
step built on it) retains the first marker; the claimed first-occurrence
split would return a different body. -/
theorem references_split_first_counterexample :
    rsplit1 refsMarker (chars ("A## ReferencesB## ReferencesC"))
      = some (chars ("A## ReferencesB"), chars ("C"))
    ∧ split1 refsMarker (chars ("A## ReferencesB## ReferencesC"))
      = some (chars ("A"), chars ("B## ReferencesC"))
    ∧ rsplit1 refsMarker (chars ("A## ReferencesB## ReferencesC"))
      ≠ split1 refsMarker (chars ("A## ReferencesB## ReferencesC"))
    ∧ prune_uncited (chars ("A## ReferencesB## ReferencesC")) []
      = some (chars ("A## ReferencesB\n\n## References\n\nC")) := by
  refine ⟨by decide, by decide, by decide, by decide⟩

/-- C4 (amended): the pruning step splits the drafted survey at the *last*
occurrence of the exact heading string `"## References"` (via
`rsplit(..., 1)`), keeping everything before it as the body and everything
after it as the References section; when the marker occurs exactly once
this coincides with the first occurrence, and the marker's absence is an
unhandled error (`none`). -/
theorem references_split_last (body rest : Str)
    (hr : pyIn refsMarker rest = false) :
    rsplit1 refsMarker (body ++ (refsMarker ++ rest)) = some (body, rest) :=
  rsplit1_junction body rest refsMarker_aperiodic hr

/-- Witness for C4 (amended): the body may even contain an earlier copy of
the marker; the split is at the last one. -/
theorem references_split_last_witness :
    pyIn refsMarker (chars ("\n\nEntry one.")) = false
    ∧ rsplit1 refsMarker
        (chars ("Intro\n\n## References\n\nOld") ++ (refsMarker ++ chars ("\n\nEntry one.")))
      = some (chars ("Intro\n\n## References\n\nOld"), chars ("\n\nEntry one.")) :=
  ⟨by decide, references_split_last _ _ (by decide)⟩

/-!
Claim C3: idempotence of the reference rebuild (`correct_references`).
-/

/-- The head of the occurrence list is the first occurrence: nothing
matches before it. -/
theorem occIdxs_head_min {m t : Str} {i : Nat}
    (h : (occIdxs m t).head? = some i) :
    ∀ j, j < i → matchAt m t j = false := by
  intro j hj
  cases hm : matchAt m t j
  · rfl
  exfalso
  have hpair : (occIdxs m t).Pairwise (· < ·) :=
    (List.pairwise_lt_range _).filter _
  obtain ⟨l, hl⟩ : ∃ l, occIdxs m t = i :: l := by
    cases hocc : occIdxs m t with
    | nil => rw [hocc] at h; cases h
    | cons a l =>
      rw [hocc] at h
      exact ⟨l, by simpa using (by injection h with h'; rw [h'] : a :: l = i :: l)⟩
  have himem : i ∈ occIdxs m t := by rw [hl]; exact List.mem_cons_self _ _
  have hile : i ≤ t.length := by
    have := (List.mem_filter.mp himem).1
    exact Nat.lt_succ_iff.mp (List.mem_range.mp this)
  have hjmem : j ∈ occIdxs m t := by
    rw [occIdxs]
    exact List.mem_filter.mpr ⟨List.mem_range.mpr (by omega), hm⟩
  rw [hl] at hjmem hpair
  rcases List.mem_cons.mp hjmem with rfl | hjl
  · omega
  · have := (List.pairwise_cons.mp hpair).1 j hjl
    omega

/-- The part before the first occurrence returned by `split1` does not
contain the needle. -/
theorem split1_prefix_no_needle {m t body rest : Str} (hm : m ≠ [])
    (h : split1 m t = some (body, rest)) : pyIn m body = false := by
  rw [split1] at h
  cases hhead : (occIdxs m t).head? with
  | none => rw [hhead] at h; cases h
  | some i =>
    rw [hhead] at h
    have hbody : body = t.take i := by
      injection h with h'
      exact (congrArg Prod.fst h').symm
    have himem : i ∈ occIdxs m t := by
      have := List.mem_of_mem_head? (by rw [hhead]; exact rfl)
      exact this
    have hile : i ≤ t.length := by
      have := (List.mem_filter.mp himem).1
      exact Nat.lt_succ_iff.mp (List.mem_range.mp this)
    have hmin := occIdxs_head_min hhead
    subst hbody
    rw [pyIn, List.any_eq_false]
    intro j hjmem
    rw [Bool.not_eq_true]
    have hjlen : j ≤ (t.take i).length := Nat.lt_succ_iff.mp (List.mem_range.mp hjmem)
    have htklen : (t.take i).length = i := by
      rw [List.length_take]
      omega
    cases hmj : matchAt m (t.take i) j
    · rfl
    exfalso
    have heq : ((t.take i).drop j).take m.length = m := of_decide_eq_true hmj
    have hjlt : j < i := by
      rcases Nat.lt_or_ge j i with hlt | hge
      · exact hlt
      · exfalso
        have hji : j = i := by omega
        subst hji
        rw [List.drop_of_length_le (by omega)] at heq
        simp at heq
        exact hm heq
    have hdt : (t.take i).drop j = (t.drop j).take (i - j) := by
      have := List.take_drop j (i - j) t
      rw [show j + (i - j) = i by omega] at this
      exact this.symm
    rw [hdt, List.take_take] at heq
    have hlen := congrArg List.length heq
    rw [List.length_take] at hlen
    have h1 : List.length m ⊓ (i - j) ⊓ (List.drop j t).length
        ≤ List.length m ⊓ (i - j) := Nat.min_le_left _ _
    have h2 : List.length m ⊓ (i - j) ≤ i - j := Nat.min_le_right _ _
    have hmle : m.length ≤ i - j := by omega
    rw [Nat.min_eq_left hmle] at heq
    have : matchAt m t j = true := by
      rw [matchAt]
      apply decide_eq_true
      exact heq
    rw [hmin j hjlt] at this
    cases this

/-- The survey body never contains the References marker. -/
theorem surveyBody_no_marker (t : Str) :
    pyIn refsMarker (surveyBody t) = false := by
  rw [surveyBody]
  cases hsplit : split1 refsMarker t with
  | none =>
    rw [split1] at hsplit
    cases hhead : (occIdxs refsMarker t).head? with
    | some i => rw [hhead] at hsplit; cases hsplit
    | none =>
      have hnil : occIdxs refsMarker t = [] := by
        cases hocc : occIdxs refsMarker t with
        | nil => rfl
        | cons a l => rw [hocc] at hhead; cases hhead
      rw [occIdxs] at hnil
      rw [pyIn, List.any_eq_false]
      intro i hi
      have := List.filter_eq_nil_iff.mp hnil i hi
      simpa using this
  | some pr =>
    obtain ⟨body, rest⟩ := pr
    exact split1_prefix_no_needle refsMarker_ne_nil hsplit

/-- Splitting a body (free of the marker) followed by a marker-led tail
recovers the body. -/
theorem surveyBody_append {b : Str} (r : Str)
    (hb : pyIn refsMarker b = false) :
    surveyBody (b ++ (refsMarker ++ r)) = b := by
  rw [surveyBody, split1_junction b r refsMarker_aperiodic hb]

/-- C3: the reference rebuild is idempotent: rebuilding the references of
an already-rebuilt survey changes nothing, for every survey text and paper
list. -/
theorem correct_references_idempotent (t : Str) (papers : List Paper) :
    correct_references (correct_references t papers) papers
      = correct_references t papers := by
  have hB : pyIn refsMarker (surveyBody t) = false := surveyBody_no_marker t
  have hsb : surveyBody (correct_references t papers) = surveyBody t := by
    rw [correct_references, refsSection]
    exact surveyBody_append _ hB
  rw [correct_references, hsb]
  rw [correct_references]

set_option maxRecDepth 100000 in
/-- The modelled `correct_references` reproduces the repository's own test
case (`tests/test_writing.py`): the cited papers' canonical entries replace
the draft's References section, sorted by surname, and the uncited paper is
dropped. -/
theorem correct_references_matches_repo_test :
    correct_references
      (chars ("# Literature Survey on Test-Driven Development\n\nThis is a dummy literature survey that cites some papers.\n\nThere is Author1 (2020) and also the other one (Author2 et al., 2021).\n\n## References\n\nJust a silly reference section with nothing in it."))
      [⟨chars ("Test-Driven Development"), [⟨chars ("First"), chars ("Author1")⟩],
        2020, chars ("Journal of Testing"), chars ("http://example.com/tdd"),
        chars ("A paper about TDD.")⟩,
       ⟨chars ("Another Paper"),
        [⟨chars ("Second"), chars ("Author2")⟩, ⟨chars ("Third"), chars ("Author3")⟩,
         ⟨chars ("Fourth"), chars ("Author4")⟩],
        2021, chars ("Conference on Testing"), chars ("http://example.com/another"),
        chars ("Another relevant paper.")⟩,
       ⟨chars ("Unused Paper"), [⟨chars ("Fifth"), chars ("Author5")⟩],
        2019, chars ("Old Journal"), chars ("http://example.com/unused"),
        chars ("An unused paper.")⟩]
    = chars ("# Literature Survey on Test-Driven Development\n\nThis is a dummy literature survey that cites some papers.\n\nThere is Author1 (2020) and also the other one (Author2 et al., 2021).\n\n## References\n\nAuthor1, First (2020). Test-Driven Development. _Journal Of Testing_.\n\nAuthor2, Second and Author3, Third and Author4, Fourth (2021). Another Paper. _Conference On Testing_.") := by
  decide

/-!
Claim C1: machinery for the pruning-correctness proof.
-/

/-- Boolean newline test used for run decompositions. -/
def isNL (c : Char) : Bool := c = '\n'

/-- A character that is not a newline fails `isNL`. -/
theorem isNL_eq_false {c : Char} (h : c ≠ '\n') : isNL c = false := by
  simp [isNL, h]

/-- A well-formed reference line: non-empty, no embedded newline, and
flanked by non-whitespace characters (as produced by splitting a stripped
References section into entry lines). -/
def goodLineB (e : Str) : Bool :=
  !e.isEmpty && !pyIsSpace (e.headD ' ') && !pyIsSpace (e.getLastD ' ')
    && !e.any (fun c => c = '\n')

/-- Unpacking of `goodLineB`. -/
theorem goodLine_parts {e : Str} (h : goodLineB e = true) :
    e ≠ [] ∧ pyIsSpace (e.headD ' ') = false ∧ pyIsSpace (e.getLastD ' ') = false
      ∧ ∀ c ∈ e, c ≠ '\n' := by
  rw [goodLineB] at h
  rw [Bool.and_eq_true, Bool.and_eq_true, Bool.and_eq_true] at h
  obtain ⟨⟨⟨h1, h2⟩, h3⟩, h4⟩ := h
  refine ⟨?_, ?_, ?_, ?_⟩
  · intro hnil
    rw [hnil] at h1
    simp at h1
  · rwa [Bool.not_eq_true'] at h2
  · rwa [Bool.not_eq_true'] at h3
  · rw [Bool.not_eq_true'] at h4
    intro c hc hcn
    have := List.any_eq_false.mp h4 c hc
    simp at this
    exact this hcn

/-- A good line starts with a non-whitespace character. -/
theorem goodLine_head {e : Str} (h : goodLineB e = true) :
    ∃ c t, e = c :: t ∧ pyIsSpace c = false := by
  obtain ⟨hne, hh, _, _⟩ := goodLine_parts h
  cases e with
  | nil => cases hne rfl
  | cons c t =>
    refine ⟨c, t, rfl, ?_⟩
    simpa using hh

/-- A good line ends with a non-whitespace character. -/
theorem goodLine_last {e : Str} (h : goodLineB e = true) :
    ∃ y c, e = y ++ [c] ∧ pyIsSpace c = false := by
  obtain ⟨hne, _, hl, _⟩ := goodLine_parts h
  refine ⟨e.dropLast, e.getLast hne, (List.dropLast_append_getLast hne).symm, ?_⟩
  rwa [List.getLastD_eq_getLast?, List.getLast?_eq_getLast _ hne, Option.getD_some] at hl

/-- A good line contains no newline. -/
theorem goodLine_noNL {e : Str} (h : goodLineB e = true) :
    ∀ c ∈ e, c ≠ '\n' :=
  (goodLine_parts h).2.2.2

/-- A newline is whitespace, so a non-whitespace character is not a
newline. -/
theorem ne_nl_of_not_space {c : Char} (h : pyIsSpace c = false) : c ≠ '\n' := by
  intro hc
  rw [hc] at h
  simp [pyIsSpace] at h

/-- The capping pass is transparent to a non-empty newline-free prefix. -/
theorem capNLAux_noNL_left : ∀ (e : Str), e ≠ [] → (∀ c ∈ e, c ≠ '\n') →
    ∀ (r : Nat) (t : Str), capNLAux r (e ++ t) = e ++ capNLAux 0 t := by
  intro e
  induction e with
  | nil => intro h; cases h rfl
  | cons c e' ih =>
    intro _ hnl r t
    have hc : c ≠ '\n' := hnl c (List.mem_cons_self _ _)
    rw [List.cons_append, capNLAux, if_neg hc]
    cases he' : e' with
    | nil => simp
    | cons d e'' =>
      rw [← he']
      rw [ih (by rw [he']; simp) (fun x hx => hnl x (List.mem_cons_of_mem _ hx)) 0 t]
      rw [List.cons_append]

/-- Capping a newline run from state `r`: at most `2 - r` newlines
survive and the state resets after the run. -/
theorem capNLAux_rep : ∀ (k r : Nat) (t : Str), t.head? ≠ some '\n' →
    capNLAux r (List.replicate k '\n' ++ t)
      = List.replicate (min k (2 - r)) '\n' ++ capNLAux 0 t := by
  intro k
  induction k with
  | zero =>
    intro r t ht
    rw [List.replicate_zero, List.nil_append, Nat.zero_min, List.replicate_zero,
      List.nil_append]
    cases t with
    | nil => rfl
    | cons c t' =>
      have hc : c ≠ '\n' := by
        intro hcc
        subst hcc
        exact ht rfl
      rw [capNLAux, capNLAux, if_neg hc, if_neg hc]
  | succ k ih =>
    intro r t ht
    rw [List.replicate_succ, List.cons_append, capNLAux, if_pos rfl]
    by_cases hr : r < 2
    · rw [if_pos hr, ih (r + 1) t ht]
      have hmin : min (k + 1) (2 - r) = min k (2 - (r + 1)) + 1 := by omega
      rw [hmin, List.replicate_succ, List.cons_append]
    · rw [if_neg hr, ih (r + 1) t ht]
      have hmin : min (k + 1) (2 - r) = min k (2 - (r + 1)) := by omega
      rw [hmin]

/-- Every string decomposes into a leading newline run and a tail that
does not start with a newline. -/
theorem exists_nl_run (s : Str) :
    ∃ k tail, s = List.replicate k '\n' ++ tail ∧ tail.head? ≠ some '\n' := by
  induction s with
  | nil => exact ⟨0, [], rfl, by simp⟩
  | cons c rest ih =>
    by_cases hc : c = '\n'
    · obtain ⟨k, tail, hrest, htail⟩ := ih
      subst hc
      exact ⟨k + 1, tail, by rw [List.replicate_succ, List.cons_append, hrest], htail⟩
    · refine ⟨0, c :: rest, rfl, ?_⟩
      intro hh
      exact hc (by injection hh)

/-- The leading newline run of `replicate k '\n' ++ x` is exactly `k` when
`x` does not start with a newline. -/
theorem takeWhile_nl_rep (k : Nat) (x : Str) (hx : x.head? ≠ some '\n') :
    (List.replicate k '\n' ++ x).takeWhile isNL = List.replicate k '\n' := by
  induction k with
  | zero =>
    rw [List.replicate_zero, List.nil_append]
    cases x with
    | nil => rfl
    | cons c t =>
      have hc : c ≠ '\n' := by
        intro hcc
        subst hcc
        exact hx rfl
      simp [List.takeWhile_cons, isNL_eq_false hc]
  | succ k ih =>
    rw [List.replicate_succ, List.cons_append, List.takeWhile_cons]
    have hnl : isNL '\n' = true := by decide
    rw [hnl]
    simp only [if_true]
    rw [ih]

/-- Dropping the leading newline run of `replicate k '\n' ++ x` leaves
`x`. -/
theorem dropWhile_nl_rep (k : Nat) (x : Str) (hx : x.head? ≠ some '\n') :
    (List.replicate k '\n' ++ x).dropWhile isNL = x := by
  induction k with
  | zero =>
    rw [List.replicate_zero, List.nil_append]
    cases x with
    | nil => rfl
    | cons c t =>
      have hc : c ≠ '\n' := by
        intro hcc
        subst hcc
        exact hx rfl
      simp [List.dropWhile_cons, isNL_eq_false hc]
  | succ k ih =>
    rw [List.replicate_succ, List.cons_append, List.dropWhile_cons]
    have hnl : isNL '\n' = true := by decide
    rw [hnl]
    simp only [if_true]
    exact ih

/-- Cancel equal leading newline runs: if two run-plus-tail decompositions
of the same string have non-newline-headed tails, they agree. -/
theorem nl_run_cancel {a b : Nat} {x y : Str}
    (hx : x.head? ≠ some '\n') (hy : y.head? ≠ some '\n')
    (h : List.replicate a '\n' ++ x = List.replicate b '\n' ++ y) :
    a = b ∧ x = y := by
  have htw := congrArg (List.takeWhile isNL) h
  rw [takeWhile_nl_rep a x hx, takeWhile_nl_rep b y hy] at htw
  have hdw := congrArg (List.dropWhile isNL) h
  rw [dropWhile_nl_rep a x hx, dropWhile_nl_rep b y hy] at hdw
  constructor
  · have := congrArg List.length htw
    simpa using this
  · exact hdw

/-- Unfolding `joinNL` on a list with at least two elements. -/
theorem joinNL_cons (l : Str) {L : List Str} (h : L ≠ []) :
    joinNL (l :: L) = l ++ '\n' :: joinNL L := by
  cases L with
  | nil => cases h rfl
  | cons l' ls => rfl

/-- Joining `m` empty lines yields `m - 1` newlines. -/
theorem joinNL_replicate_nil : ∀ m : Nat,
    joinNL (List.replicate m ([] : Str)) = List.replicate (m - 1) '\n' := by
  intro m
  induction m with
  | zero => rfl
  | succ m ih =>
    cases m with
    | zero => rfl
    | succ m' =>
      rw [List.replicate_succ]
      rw [joinNL_cons _ (by simp)]
      rw [ih]
      rw [List.nil_append]
      rw [show m' + 1 + 1 - 1 = (m' + 1 - 1) + 1 by omega]
      rw [List.replicate_succ]

/-- Members of an interspersed list are members or the separator. -/
theorem mem_intersperse {sep x : Str} : ∀ {l : List Str},
    x ∈ List.intersperse sep l → x ∈ l ∨ x = sep := by
  intro l
  induction l with
  | nil => intro h; simp at h
  | cons a l ih =>
    intro h
    cases l with
    | nil =>
      rw [List.intersperse_singleton] at h
      exact Or.inl h
    | cons b l' =>
      rw [List.intersperse_cons_cons] at h
      rcases List.mem_cons.mp h with rfl | h'
      · exact Or.inl (List.mem_cons_self _ _)
      · rcases List.mem_cons.mp h' with rfl | h''
        · exact Or.inr rfl
        · rcases ih h'' with hm | hs
          · exact Or.inl (List.mem_cons_of_mem _ hm)
          · exact Or.inr hs

/-- Interspersing a non-empty list is non-empty. -/
theorem intersperse_ne_nil (sep : Str) : ∀ (l : List Str), l ≠ [] →
    List.intersperse sep l ≠ [] := by
  intro l hl
  cases l with
  | nil => cases hl rfl
  | cons a l' =>
    cases l' with
    | nil => simp [List.intersperse_singleton]
    | cons b l'' => simp [List.intersperse_cons_cons]

/-- Interspersing preserves the last element. -/
theorem intersperse_getLast? (sep : Str) : ∀ (l : List Str), l ≠ [] →
    (List.intersperse sep l).getLast? = l.getLast? := by
  intro l
  induction l with
  | nil => intro h; cases h rfl
  | cons a l ih =>
    intro _
    cases l with
    | nil => rfl
    | cons b l' =>
      rw [List.intersperse_cons_cons]
      rw [show a :: sep :: List.intersperse sep (b :: l')
          = [a, sep] ++ List.intersperse sep (b :: l') from rfl]
      rw [List.getLast?_append]
      rw [ih (by simp)]
      have hbl : ∃ v, (b :: l').getLast? = some v :=
        ⟨(b :: l').getLast (by simp), List.getLast?_eq_getLast _ _⟩
      obtain ⟨v, hv⟩ := hbl
      rw [hv, Option.or_some, List.getLast?_cons_cons, hv]

/-- When no entry is kept, filtering the interspersed list leaves only the
blank separators. -/
theorem filter_intersperse_allfalse (keep : Str → Bool) (hkb : keep [] = true) :
    ∀ es : List Str, (∀ e ∈ es, keep e = false) →
      (List.intersperse [] es).filter keep = List.replicate (es.length - 1) [] := by
  intro es
  induction es with
  | nil => intro _; rfl
  | cons e es ih =>
    intro hall
    cases es with
    | nil =>
      simp [List.intersperse_singleton, hall e (List.mem_cons_self _ _)]
    | cons e' es' =>
      rw [List.intersperse_cons_cons]
      rw [List.filter_cons, hall e (List.mem_cons_self _ _)]
      rw [if_neg (by decide : ¬(false = true))]
      rw [List.filter_cons, hkb]
      rw [if_pos (rfl : true = true)]
      rw [ih (fun x hx => hall x (List.mem_cons_of_mem _ hx))]
      rw [show (e :: e' :: es').length - 1 = ((e' :: es').length - 1) + 1 by simp]
      rw [List.replicate_succ]

/-- Unfolding the canonical blank-separated join on a cons. -/
theorem nf_cons (k : Str) {ks : List Str} (h : ks ≠ []) :
    joinNL (List.intersperse [] (k :: ks))
      = k ++ ('\n' :: '\n' :: joinNL (List.intersperse [] ks)) := by
  cases ks with
  | nil => cases h rfl
  | cons k' ks' =>
    rw [List.intersperse_cons_cons]
    rw [joinNL_cons _ (by simp)]
    rw [joinNL_cons _ (intersperse_ne_nil [] (k' :: ks') (by simp))]
    rw [List.nil_append]

/-- The canonical join of good kept lines starts with a non-whitespace
character. -/
theorem nf_head : ∀ (ks : List Str), ks ≠ [] → (∀ k ∈ ks, goodLineB k = true) →
    ∃ c t, joinNL (List.intersperse [] ks) = c :: t ∧ pyIsSpace c = false := by
  intro ks
  cases ks with
  | nil => intro h; cases h rfl
  | cons k ks' =>
    intro _ hgood
    obtain ⟨c, t, hk, hc⟩ := goodLine_head (hgood k (List.mem_cons_self _ _))
    cases ks' with
    | nil => exact ⟨c, t, by simpa using hk, hc⟩
    | cons k' ks'' =>
      rw [nf_cons _ (by simp)]
      rw [hk]
      exact ⟨c, t ++ ('\n' :: '\n' :: joinNL (List.intersperse [] (k' :: ks''))),
        by rw [List.cons_append], hc⟩

/-- The canonical join of good kept lines ends with a non-whitespace
character. -/
theorem nf_last : ∀ (ks : List Str), ks ≠ [] → (∀ k ∈ ks, goodLineB k = true) →
    ∃ y c, joinNL (List.intersperse [] ks) = y ++ [c] ∧ pyIsSpace c = false := by
  intro ks
  induction ks with
  | nil => intro h; cases h rfl
  | cons k ks' ih =>
    intro _ hgood
    cases ks' with
    | nil =>
      obtain ⟨y, c, hk, hc⟩ := goodLine_last (hgood k (List.mem_cons_self _ _))
      exact ⟨y, c, by simpa using hk, hc⟩
    | cons k' ks'' =>
      obtain ⟨y, c, hnf, hc⟩ := ih (by simp)
        (fun x hx => hgood x (List.mem_cons_of_mem _ hx))
      rw [nf_cons _ (by simp), hnf]
      refine ⟨k ++ ('\n' :: '\n' :: y), c, ?_, hc⟩
      rw [List.append_assoc]
      rfl

/-- Dropping leading whitespace skips a leading newline run. -/
theorem dropWhile_space_rep_nl : ∀ (a : Nat) (s : Str),
    (List.replicate a '\n' ++ s).dropWhile pyIsSpace = s.dropWhile pyIsSpace := by
  intro a
  induction a with
  | zero => intro s; rw [List.replicate_zero, List.nil_append]
  | succ a ih =>
    intro s
    rw [List.replicate_succ, List.cons_append, List.dropWhile_cons]
    rw [show pyIsSpace '\n' = true by decide]
    simp only [if_true]
    exact ih s

/-- Stripping a string that is a trimmed core padded with newline runs
recovers the core. -/
theorem pyStrip_pad (a b : Nat) (x : Str)
    (hx : x = [] ∨ ((∃ c t, x = c :: t ∧ pyIsSpace c = false)
      ∧ (∃ y c, x = y ++ [c] ∧ pyIsSpace c = false))) :
    pyStrip (List.replicate a '\n' ++ (x ++ List.replicate b '\n')) = x := by
  rcases hx with rfl | ⟨⟨c, t, hhead, hc⟩, ⟨y, c', hlast, hc'⟩⟩
  · rw [pyStrip]
    rw [List.nil_append]
    rw [← List.replicate_add]
    have h1 : (List.replicate (a + b) '\n').dropWhile pyIsSpace = ([] : Str) := by
      have := dropWhile_space_rep_nl (a + b) []
      simpa using this
    rw [h1]
    rfl
  · rw [pyStrip]
    have h1 : (List.replicate a '\n' ++ (x ++ List.replicate b '\n')).dropWhile pyIsSpace
        = x ++ List.replicate b '\n' := by
      rw [dropWhile_space_rep_nl]
      rw [hhead, List.cons_append, List.dropWhile_cons, hc]
      simp
    rw [h1]
    have h2 : (x ++ List.replicate b '\n').reverse
        = List.replicate b '\n' ++ x.reverse := by
      rw [List.reverse_append, List.reverse_replicate]
    rw [h2]
    rw [dropWhile_space_rep_nl]
    have h3 : x.reverse.dropWhile pyIsSpace = x.reverse := by
      rw [hlast, List.reverse_append]
      simp [List.dropWhile_cons, hc']
    rw [h3, List.reverse_reverse]

/-- Members survive interspersing. -/
theorem mem_intersperse_of_mem {sep x : Str} : ∀ {l : List Str},
    x ∈ l → x ∈ List.intersperse sep l := by
  intro l
  induction l with
  | nil => intro h; simp at h
  | cons a l ih =>
    intro h
    cases l with
    | nil =>
      rw [List.intersperse_singleton]
      exact h
    | cons b l' =>
      rw [List.intersperse_cons_cons]
      rcases List.mem_cons.mp h with rfl | h'
      · exact List.mem_cons_self _ _
      · exact List.mem_cons_of_mem _ (List.mem_cons_of_mem _ (ih h'))

/-- The capping pass preserves not starting with a newline. -/
theorem capNL_head {t : Str} (h : t.head? ≠ some '\n') :
    (capNLAux 0 t).head? ≠ some '\n' := by
  cases t with
  | nil => simp [capNLAux]
  | cons c t' =>
    have hc : c ≠ '\n' := by
      intro hcc
      subst hcc
      exact h rfl
    rw [capNLAux, if_neg hc]
    simpa using hc

/-- Core of the pruning-correctness proof: collapsing the newline runs of
the joined, filtered line list and normalising yields the canonical
blank-separated join of the kept entries, up to leading and trailing
newline runs. -/
theorem collapse_join_blanksep (keep : Str → Bool) (hkb : keep [] = true) :
    ∀ entries : List Str, (∀ e ∈ entries, goodLineB e = true) →
      ∃ a b, collapseNL (joinNL ((List.intersperse [] entries).filter keep))
        = List.replicate a '\n'
          ++ (joinNL (List.intersperse [] (entries.filter keep))
            ++ List.replicate b '\n') := by
  intro entries
  induction entries with
  | nil =>
    intro _
    exact ⟨0, 0, by simp [collapseNL, capNLAux, joinNL]⟩
  | cons e es ih =>
    intro hgood
    have hge : goodLineB e = true := hgood e (List.mem_cons_self _ _)
    have hges : ∀ x ∈ es, goodLineB x = true :=
      fun x hx => hgood x (List.mem_cons_of_mem _ hx)
    have hene : e ≠ [] := (goodLine_parts hge).1
    have henl : ∀ c ∈ e, c ≠ '\n' := goodLine_noNL hge
    cases es with
    | nil =>
      by_cases hke : keep e = true
      · refine ⟨0, 0, ?_⟩
        have hcol : collapseNL e = e := by
          rw [collapseNL]
          have hpre := capNLAux_noNL_left e hene henl 0 []
          rw [List.append_nil] at hpre
          rw [hpre, show capNLAux 0 [] = [] from rfl, List.append_nil]
        rw [List.intersperse_singleton]
        rw [List.filter_cons, hke, if_pos rfl, List.filter_nil]
        rw [List.intersperse_singleton]
        rw [show joinNL [e] = e from rfl]
        rw [hcol]
        simp
      · refine ⟨0, 0, ?_⟩
        rw [List.intersperse_singleton]
        rw [List.filter_cons]
        rw [if_neg (by simp [hke]), List.filter_nil]
        simp [collapseNL, capNLAux, joinNL]
    | cons e' es' =>
      obtain ⟨a', b', hIH⟩ := ih hges
      obtain ⟨k, tail, hJ, htail⟩ :=
        exists_nl_run (joinNL ((List.intersperse [] (e' :: es')).filter keep))
      have hcap : capNLAux 0 (joinNL ((List.intersperse [] (e' :: es')).filter keep))
          = List.replicate (min k 2) '\n' ++ capNLAux 0 tail := by
        rw [hJ]
        have h2 := capNLAux_rep k 0 tail htail
        simpa using h2
      have hFLpos : keep e = true →
          (List.intersperse [] (e :: e' :: es')).filter keep
            = e :: ([] : Str) :: (List.intersperse [] (e' :: es')).filter keep := by
        intro hk
        rw [List.intersperse_cons_cons]
        simp [List.filter_cons, hk, hkb]
      have hFLneg : keep e = false →
          (List.intersperse [] (e :: e' :: es')).filter keep
            = ([] : Str) :: (List.intersperse [] (e' :: es')).filter keep := by
        intro hk
        rw [List.intersperse_cons_cons]
        simp [List.filter_cons, hk, hkb]
      have hKpos : keep e = true →
          (e :: e' :: es').filter keep = e :: (e' :: es').filter keep := by
        intro hk
        simp [List.filter_cons, hk]
      have hKneg : keep e = false →
          (e :: e' :: es').filter keep = (e' :: es').filter keep := by
        intro hk
        simp [List.filter_cons, hk]
      by_cases hkes : (e' :: es').filter keep = []
      · -- no entry of the tail is kept: the filtered tail is all blanks
        have hallf : ∀ x ∈ (e' :: es'), keep x = false := by
          intro x hx
          have h3 := List.filter_eq_nil_iff.mp hkes x hx
          simpa using h3
        have hT : (List.intersperse [] (e' :: es')).filter keep
            = List.replicate ((e' :: es').length - 1) [] :=
          filter_intersperse_allfalse keep hkb _ hallf
        have hlen1 : 1 ≤ (e' :: es').length := by simp
        by_cases hke : keep e = true
        · -- the head entry is kept, all later entries are dropped
          refine ⟨0, min (e' :: es').length 2, ?_⟩
          rw [hFLpos hke, hKpos hke, hkes, hT]
          have hrep : ([] : Str) :: List.replicate ((e' :: es').length - 1) []
              = List.replicate (e' :: es').length ([] : Str) := by
            rw [show (e' :: es').length = ((e' :: es').length - 1) + 1 by omega]
            rw [List.replicate_succ]
            simp
          rw [hrep]
          rw [joinNL_cons _ (by simp [List.replicate_succ])]
          rw [joinNL_replicate_nil]
          have hjoin : ('\n' :: List.replicate ((e' :: es').length - 1) '\n')
              = List.replicate (e' :: es').length '\n' := by
            rw [show (e' :: es').length = ((e' :: es').length - 1) + 1 by omega]
            rw [List.replicate_succ]
            simp
          rw [hjoin]
          rw [collapseNL]
          rw [capNLAux_noNL_left e hene henl 0 _]
          have hrep2 := capNLAux_rep (e' :: es').length 0 [] (by simp)
          rw [List.append_nil] at hrep2
          rw [hrep2]
          rw [show capNLAux 0 [] = [] from rfl, List.append_nil]
          rw [List.intersperse_singleton]
          rw [show joinNL [e] = e from rfl]
          simp
        · -- nothing at all is kept
          refine ⟨min ((e' :: es').length - 1) 2, 0, ?_⟩
          rw [hFLneg (by simpa using hke), hKneg (by simpa using hke), hkes, hT]
          have hrep : ([] : Str) :: List.replicate ((e' :: es').length - 1) []
              = List.replicate (e' :: es').length ([] : Str) := by
            rw [show (e' :: es').length = ((e' :: es').length - 1) + 1 by omega]
            rw [List.replicate_succ]
            simp
          rw [hrep]
          rw [joinNL_replicate_nil]
          rw [collapseNL]
          have hrep2 := capNLAux_rep ((e' :: es').length - 1) 0 [] (by simp)
          rw [List.append_nil] at hrep2
          rw [hrep2]
          rw [show capNLAux 0 [] = [] from rfl, List.append_nil]
          rw [show List.intersperse ([] : Str) [] = [] from rfl]
          rw [show joinNL [] = [] from rfl]
          simp
      · -- some tail entry is kept
        have hkgood : ∀ x ∈ (e' :: es').filter keep, goodLineB x = true :=
          fun x hx => hges x (List.mem_of_mem_filter hx)
        obtain ⟨c0, t0, hnf, hc0⟩ := nf_head _ hkes hkgood
        have hc0nl : c0 ≠ '\n' := ne_nl_of_not_space hc0
        have hcapt : (capNLAux 0 tail).head? ≠ some '\n' := capNL_head htail
        have hnfhead : (joinNL (List.intersperse [] ((e' :: es').filter keep))
            ++ List.replicate b' '\n').head? ≠ some '\n' := by
          rw [hnf]
          rw [List.cons_append]
          intro hcontra
          exact hc0nl (by injection hcontra)
        have hsplit := nl_run_cancel hcapt hnfhead (hcap.symm.trans hIH)
        obtain ⟨hka, htaileq⟩ := hsplit
        have hTne : (List.intersperse [] (e' :: es')).filter keep ≠ [] := by
          intro hnil
          obtain ⟨x, hx⟩ : ∃ x, x ∈ (e' :: es').filter keep := by
            cases hfk : (e' :: es').filter keep with
            | nil => exact absurd hfk hkes
            | cons y ys => exact ⟨y, by simp [hfk]⟩
          have hxes : x ∈ (e' :: es') := List.mem_of_mem_filter hx
          have hxkeep : keep x = true := (List.mem_filter.mp hx).2
          have hmem : x ∈ (List.intersperse [] (e' :: es')).filter keep :=
            List.mem_filter.mpr ⟨mem_intersperse_of_mem hxes, hxkeep⟩
          rw [hnil] at hmem
          simp at hmem
        by_cases hke : keep e = true
        · refine ⟨0, b', ?_⟩
          rw [hFLpos hke, hKpos hke]
          rw [joinNL_cons _ (by simp)]
          rw [joinNL_cons _ hTne]
          rw [List.nil_append]
          rw [collapseNL]
          have hjshape : e ++ '\n' :: '\n'
                :: joinNL ((List.intersperse [] (e' :: es')).filter keep)
              = e ++ (List.replicate (2 + k) '\n' ++ tail) := by
            rw [hJ]
            rw [List.replicate_add]
            simp
          rw [hjshape]
          rw [capNLAux_noNL_left e hene henl 0 _]
          rw [capNLAux_rep (2 + k) 0 tail htail]
          rw [show min (2 + k) (2 - 0) = 2 by omega]
          rw [htaileq]
          rw [nf_cons _ hkes]
          simp [List.append_assoc]
        · refine ⟨min (k + 1) 2, b', ?_⟩
          rw [hFLneg (by simpa using hke), hKneg (by simpa using hke)]
          rw [joinNL_cons _ hTne]
          rw [List.nil_append]
          rw [collapseNL]
          have hjshape : '\n' :: joinNL ((List.intersperse [] (e' :: es')).filter keep)
              = List.replicate (k + 1) '\n' ++ tail := by
            rw [hJ]
            rw [List.replicate_succ, List.cons_append]
          rw [hjshape]
          rw [capNLAux_rep (k + 1) 0 tail htail]
          rw [htaileq]

/-- Splitting a newline-free string yields the single accumulated line. -/
theorem splitlinesGo_noNL : ∀ (l acc : Str), (∀ c ∈ l, c ≠ '\n') →
    splitlinesGo acc l = [acc.reverse ++ l] := by
  intro l
  induction l with
  | nil => intro acc _; simp [splitlinesGo]
  | cons c rest ih =>
    intro acc hnl
    have hc : c ≠ '\n' := hnl c (List.mem_cons_self _ _)
    rw [splitlinesGo, if_neg hc]
    rw [ih (c :: acc) (fun x hx => hnl x (List.mem_cons_of_mem _ hx))]
    simp

/-- Splitting past the first newline-free line peels it off. -/
theorem splitlinesGo_append : ∀ (l acc rest : Str), (∀ c ∈ l, c ≠ '\n') →
    rest ≠ [] →
    splitlinesGo acc (l ++ '\n' :: rest)
      = (acc.reverse ++ l) :: splitlinesGo [] rest := by
  intro l
  induction l with
  | nil =>
    intro acc rest _ hrest
    rw [List.nil_append, splitlinesGo, if_pos rfl]
    rw [if_neg (by simpa [List.isEmpty_iff] using hrest)]
    simp
  | cons c l' ih =>
    intro acc rest hnl hrest
    have hc : c ≠ '\n' := hnl c (List.mem_cons_self _ _)
    rw [List.cons_append, splitlinesGo, if_neg hc]
    rw [ih (c :: acc) rest (fun x hx => hnl x (List.mem_cons_of_mem _ hx)) hrest]
    simp

/-- Splitting the newline-join of newline-free lines recovers the lines,
provided the last line is not empty (a trailing newline would be eaten by
Python's `splitlines`). -/
theorem pySplitlines_joinNL : ∀ lines : List Str,
    (∀ l ∈ lines, ∀ c ∈ l, c ≠ '\n') → lines.getLast? ≠ some [] →
    pySplitlines (joinNL lines) = lines := by
  intro lines
  induction lines with
  | nil => intro _ _; rfl
  | cons l ls ih =>
    intro hnl hlast
    cases ls with
    | nil =>
      have hlne : l ≠ [] := by
        intro hl
        exact hlast (by rw [hl]; rfl)
      rw [show joinNL [l] = l from rfl]
      rw [pySplitlines, if_neg (by simpa [List.isEmpty_iff] using hlne)]
      rw [splitlinesGo_noNL l [] (hnl l (List.mem_cons_self _ _))]
      simp
    | cons l' ls' =>
      have hR : pySplitlines (joinNL (l' :: ls')) = l' :: ls' :=
        ih (fun x hx => hnl x (List.mem_cons_of_mem _ hx))
          (by rwa [List.getLast?_cons_cons] at hlast)
      have hRne : joinNL (l' :: ls') ≠ [] := by
        intro hnil
        rw [hnil] at hR
        rw [show pySplitlines [] = [] from rfl] at hR
        cases hR
      rw [joinNL_cons _ (by simp)]
      rw [pySplitlines, if_neg (by simp [List.isEmpty_iff])]
      rw [splitlinesGo_append l [] _ (hnl l (List.mem_cons_self _ _)) hRne]
      rw [List.reverse_nil, List.nil_append]
      rw [pySplitlines, if_neg (by simpa [List.isEmpty_iff] using hRne)] at hR
      rw [hR]

/-- A word-bounded title search never matches the empty line. -/
theorem reSearchWord_nil (title : Str) : reSearchWord title [] = false := by
  rw [reSearchWord]
  rw [show List.length ([] : Str) = 0 from rfl]
  rw [show List.range (0 + 1) = [0] from rfl]
  simp [wordBoundary, wordAt]

/-- Filtering by a predicate and by its negation partitions the length. -/
theorem length_filter_add_not (p : Str → Bool) : ∀ l : List Str,
    (l.filter p).length + (l.filter (fun x => ! p x)).length = l.length := by
  intro l
  induction l with
  | nil => rfl
  | cons x xs ih =>
    rw [List.filter_cons, List.filter_cons]
    cases hx : p x with
    | true =>
      rw [if_pos rfl]
      rw [if_neg (by simp)]
      simp only [List.length_cons]
      omega
    | false =>
      rw [if_neg (by simp)]
      rw [if_pos (show (!false) = true from rfl)]
      simp only [List.length_cons]
      omega

/-- The papers whose citation (in either surface form) does not occur in
the survey text — the `papers_still_missing_citations` computation of
`write_literature_survey`. -/
def uncitedPapers (papers : List Paper) (text : Str) : List Paper :=
  papers.filter (fun p => ! citedInText p text)

/-- Does some still-uncited paper's exact title occur in the line as a
whole word?  This is the per-line removal test of the pruning step. -/
def matchedByUncited (missing : List Paper) (line : Str) : Bool :=
  missing.any (fun paper => reSearchWord paper.title line)

/-- C1: pruning correctness.  For a survey whose References section
consists of `N` well-formed entry lines separated by single blank lines,
where the uncited papers' titles whole-word-match exactly `M` of the entry
lines, the pruning step removes exactly the matched lines: the result is
the stripped body, the heading, and the `N − M` surviving entries
separated by exactly one blank line. -/
theorem prune_uncited_correct
    (body refsRaw : Str) (entries : List Str) (papers : List Paper)
    (hr : pyIn refsMarker refsRaw = false)
    (hstrip : pyStrip refsRaw = joinNL (List.intersperse [] entries))
    (hgood : ∀ e ∈ entries, goodLineB e = true)
    (hM : (entries.filter
        (fun e => matchedByUncited
          (uncitedPapers papers (body ++ (refsMarker ++ refsRaw))) e)).length
      = (uncitedPapers papers (body ++ (refsMarker ++ refsRaw))).length) :
    prune_uncited (body ++ (refsMarker ++ refsRaw))
        (uncitedPapers papers (body ++ (refsMarker ++ refsRaw)))
      = some (pyStrip body ++ chars ("\n\n## References\n\n")
          ++ joinNL (List.intersperse [] (entries.filter
              (fun e => ! matchedByUncited
                (uncitedPapers papers (body ++ (refsMarker ++ refsRaw))) e))))
    ∧ (entries.filter
        (fun e => ! matchedByUncited
          (uncitedPapers papers (body ++ (refsMarker ++ refsRaw))) e)).length
      = entries.length
        - (uncitedPapers papers (body ++ (refsMarker ++ refsRaw))).length := by
  constructor
  · -- the pruning computation
    rw [prune_uncited]
    rw [rsplit1_junction body refsRaw refsMarker_aperiodic hr]
    dsimp only
    have hlines : pySplitlines (pyStrip refsRaw) = List.intersperse [] entries := by
      rw [hstrip]
      apply pySplitlines_joinNL
      · intro l hl
        rcases mem_intersperse hl with hmem | rfl
        · exact goodLine_noNL (hgood l hmem)
        · intro c hc
          simp at hc
      · cases hent : entries with
        | nil => simp
        | cons x xs =>
          rw [← hent]
          rw [intersperse_getLast? [] entries (by rw [hent]; simp)]
          have hmem : entries.getLast (by rw [hent]; simp) ∈ entries :=
            List.getLast_mem _
          have hgl := (goodLine_parts (hgood _ hmem)).1
          rw [List.getLast?_eq_getLast _ (by rw [hent]; simp)]
          intro hcontra
          exact hgl (by injection hcontra)
    rw [hlines]
    have hkb : (fun line => ! (uncitedPapers papers (body ++ (refsMarker ++ refsRaw))).any
        (fun paper => reSearchWord paper.title line)) ([] : Str) = true := by
      rw [Bool.not_eq_true']
      rw [List.any_eq_false]
      intro p _
      rw [reSearchWord_nil]
      simp
    obtain ⟨a, b, hAB⟩ := collapse_join_blanksep
      (fun line => ! (uncitedPapers papers (body ++ (refsMarker ++ refsRaw))).any
        (fun paper => reSearchWord paper.title line)) hkb entries hgood
    rw [hAB]
    have hkept : pyStrip (List.replicate a '\n'
        ++ (joinNL (List.intersperse [] (entries.filter
          (fun line => ! (uncitedPapers papers (body ++ (refsMarker ++ refsRaw))).any
            (fun paper => reSearchWord paper.title line))))
          ++ List.replicate b '\n'))
        = joinNL (List.intersperse [] (entries.filter
          (fun line => ! (uncitedPapers papers (body ++ (refsMarker ++ refsRaw))).any
            (fun paper => reSearchWord paper.title line)))) := by
      apply pyStrip_pad
      cases hk : entries.filter
          (fun line => ! (uncitedPapers papers (body ++ (refsMarker ++ refsRaw))).any
            (fun paper => reSearchWord paper.title line)) with
      | nil => exact Or.inl rfl
      | cons x xs =>
        right
        have hkne : entries.filter
            (fun line => ! (uncitedPapers papers (body ++ (refsMarker ++ refsRaw))).any
              (fun paper => reSearchWord paper.title line)) ≠ [] := by
          rw [hk]; simp
        have hkg : ∀ y ∈ entries.filter
            (fun line => ! (uncitedPapers papers (body ++ (refsMarker ++ refsRaw))).any
              (fun paper => reSearchWord paper.title line)), goodLineB y = true :=
          fun y hy => hgood y (List.mem_of_mem_filter hy)
        rw [← hk]
        exact ⟨nf_head _ hkne hkg, nf_last _ hkne hkg⟩
    rw [hkept]
    rw [show (fun e => ! matchedByUncited
        (uncitedPapers papers (body ++ (refsMarker ++ refsRaw))) e)
      = (fun line => ! (uncitedPapers papers (body ++ (refsMarker ++ refsRaw))).any
          (fun paper => reSearchWord paper.title line)) from rfl]
  · -- the count
    have hcount : (entries.filter
          (fun e => matchedByUncited
            (uncitedPapers papers (body ++ (refsMarker ++ refsRaw))) e)).length
        + (entries.filter
          (fun e => ! matchedByUncited
            (uncitedPapers papers (body ++ (refsMarker ++ refsRaw))) e)).length
        = entries.length := by
      have h0 := length_filter_add_not
        (fun e => matchedByUncited
          (uncitedPapers papers (body ++ (refsMarker ++ refsRaw))) e) entries
      simpa using h0
    omega

/-- Body of the concrete pruning witness survey. -/
def pruneWitnessBody : Str := chars ("Intro. Unknown Author (2020) says.")

/-- Raw References text of the concrete pruning witness survey. -/
def pruneWitnessRefs : Str := chars ("\n\nGood Entry One.\n\nBad Entry Two.")

/-- Entry lines of the concrete pruning witness survey. -/
def pruneWitnessEntries : List Str :=
  [chars ("Good Entry One."), chars ("Bad Entry Two.")]

/-- Paper list of the concrete pruning witness: the first is cited in the
body, the second is not and its title matches the second entry line. -/
def pruneWitnessPapers : List Paper :=
  [⟨chars ("Good Entry One"), [], 2020, [], [], []⟩,
   ⟨chars ("Bad Entry Two"), [], 2021, [], [], []⟩]

/-- Witness for C1 at a concrete two-entry survey with one uncited
paper. -/
theorem prune_uncited_correct_witness :
    prune_uncited (pruneWitnessBody ++ (refsMarker ++ pruneWitnessRefs))
        (uncitedPapers pruneWitnessPapers
          (pruneWitnessBody ++ (refsMarker ++ pruneWitnessRefs)))
      = some (pyStrip pruneWitnessBody ++ chars ("\n\n## References\n\n")
          ++ joinNL (List.intersperse [] (pruneWitnessEntries.filter
              (fun e => ! matchedByUncited
                (uncitedPapers pruneWitnessPapers
                  (pruneWitnessBody ++ (refsMarker ++ pruneWitnessRefs))) e))))
    ∧ (pruneWitnessEntries.filter
        (fun e => ! matchedByUncited
          (uncitedPapers pruneWitnessPapers
            (pruneWitnessBody ++ (refsMarker ++ pruneWitnessRefs))) e)).length
      = pruneWitnessEntries.length
        - (uncitedPapers pruneWitnessPapers
            (pruneWitnessBody ++ (refsMarker ++ pruneWitnessRefs))).length :=
  prune_uncited_correct pruneWitnessBody pruneWitnessRefs pruneWitnessEntries
    pruneWitnessPapers (by decide) (by decide) (by decide) (by decide)
